import Mathlib

/-!
# expframework: experiment flag store

A shallow embedding of `src/expfw.h` and `src/expfw.cpp`.

* `std::string` is a list of characters (`Str`); a `const char*` argument is an
  `Option Str` where `none` is the NULL pointer and the pointed-to C string is the
  part of the list before the first NUL character (`c_string`).
* `std::map<K, V>` is a list of key/value pairs kept in key order; `find`,
  `insert` and `operator[]` are `Map.find`, `Map.insert` and `Map.subscript`.
* `FlagValue` (a C union) is a sum type recording the member written last;
  reading another member is not defined and yields `none`.
* `int32_t` / `uint32_t` are `Int` / `Nat`; the narrowing casts are explicit.
* Operations that write to the logging sink return the entries they emit, or carry
  them in the `glog` field of the environment. The load under a logging facility that
  terminates the process on a diagnostic is `load_exp_config_glog`.
-/

namespace exp_flag

/-! ## Strings and the C library -/

/-- A `std::string`: its characters in order. -/
abbrev Str := List Char

/-- The C string a `const char*` points to: the characters before the first NUL.
Also the result of `std::string::c_str()` as seen by a C function. -/
def c_string (s : Str) : Str := s.takeWhile (fun c => c.toNat != 0)

/-- The `isspace` test of the C locale: space, and the range tab .. carriage return. -/
def isspace (c : Char) : Bool := c.toNat == 32 || (decide (9 ≤ c.toNat) && decide (c.toNat ≤ 13))

/-- The `isdigit` test: the characters 0 .. 9. -/
def isdigit (c : Char) : Bool := decide (48 ≤ c.toNat) && decide (c.toNat ≤ 57)

/-- The function `boost::trim`: remove leading and trailing whitespace. -/
def trim (s : Str) : Str := ((s.dropWhile isspace).reverse.dropWhile isspace).reverse

/-- The call `s.substr(pos, n)` for `pos ≤ s.size()`. -/
def substr (s : Str) (pos n : Nat) : Str := (s.drop pos).take n

/-- The call `s.find(ch)`: offset of the first occurrence, `none` for `npos`. -/
def find_char : Str → Char → Option Nat
  | [], _ => none
  | c :: s, ch => if c = ch then some 0 else (find_char s ch).map (· + 1)

/-- Lines read by successive `getline` calls: `cur` is the line read so far. -/
def getlines_from : Str → Str → List Str
  | cur, [] => if cur = [] then [] else [cur]
  | cur, c :: rest => if c.toNat = 10 then cur :: getlines_from [] rest
                      else getlines_from (cur ++ [c]) rest

/-- The lines `while (getline(ifs, tmp))` iterates over, for a file with the given
contents. -/
def getlines (contents : Str) : List Str := getlines_from [] contents

/-- The limits of `long long` and `unsigned long long` (64 bits). -/
def LLONG_MAX : Int := 2 ^ 63 - 1

def LLONG_MIN : Int := -(2 ^ 63)

def ULLONG_MAX : Nat := 2 ^ 64 - 1

/-- Value of a run of decimal digits. -/
def digits_value (ds : Str) : Nat := ds.foldl (fun acc c => 10 * acc + (c.toNat - 48)) 0

/-- Result of a `strto*` call: the value returned, the offset `end - v` of the first
character not consumed, and whether `errno` was set (to `ERANGE`). -/
structure StrtoResult (α : Type) where
  value : α
  endp : Nat
  erange : Bool
deriving DecidableEq

/-- The subject sequence of `strtoll` / `strtoull` in base 10: the whitespace skipped,
whether a minus sign was read, the length of the sign, and the digits. -/
structure Subject where
  ws : Nat
  neg : Bool
  signlen : Nat
  digits : Str
deriving DecidableEq

/-- Skip leading whitespace, read an optional sign, then the longest run of digits. -/
def scan_subject (v : Str) : Subject :=
  let s1 := v.dropWhile isspace
  let ws := (v.takeWhile isspace).length
  if s1.head? = some '-' then ⟨ws, true, 1, s1.tail.takeWhile isdigit⟩
  else if s1.head? = some '+' then ⟨ws, false, 1, s1.tail.takeWhile isdigit⟩
  else ⟨ws, false, 0, s1.takeWhile isdigit⟩

/-- The C function `strtoll(v, &end, 10)` on the C string `v`. Without digits no
conversion is performed: the value is 0 and `end = v`. A value outside the range of
`long long` is clamped and sets `errno`. -/
def strtoll (v : Str) : StrtoResult Int :=
  let sub := scan_subject v
  if sub.digits = [] then ⟨0, 0, false⟩
  else
    let n : Int := digits_value sub.digits
    let x : Int := if sub.neg then -n else n
    let endp := sub.ws + sub.signlen + sub.digits.length
    if LLONG_MAX < x then ⟨LLONG_MAX, endp, true⟩
    else if x < LLONG_MIN then ⟨LLONG_MIN, endp, true⟩
    else ⟨x, endp, false⟩

/-- The C function `strtoull(v, &end, 10)` on the C string `v`. A magnitude above
`ULLONG_MAX` gives `ULLONG_MAX` and sets `errno`; otherwise a minus sign negates the
value in the unsigned type. -/
def strtoull (v : Str) : StrtoResult Nat :=
  let sub := scan_subject v
  if sub.digits = [] then ⟨0, 0, false⟩
  else
    let n : Nat := digits_value sub.digits
    let endp := sub.ws + sub.signlen + sub.digits.length
    if ULLONG_MAX < n then ⟨ULLONG_MAX, endp, true⟩
    else if sub.neg then ⟨(2 ^ 64 - n) % 2 ^ 64, endp, false⟩
    else ⟨n, endp, false⟩

/-- The cast `static_cast<int32_t>` of a `long long`: reduction modulo 2^32 into
the signed range. -/
def to_int32 (x : Int) : Int := (x + 2 ^ 31) % 2 ^ 32 - 2 ^ 31

/-- The cast `static_cast<uint32_t>` of an `unsigned long long`. -/
def to_uint32 (x : Nat) : Nat := x % 2 ^ 32

/-- Library functions the code calls whose results are taken as given:
`boost::hash<string>` converted to `FlagID`, and `strtod` converted to `float`
(the bit pattern of the result, the end offset, and whether `errno` was set). -/
structure Lib where
  string_hash : Str → Int
  strtod : Str → StrtoResult Nat

/-! ## Ordered maps -/

namespace Map

variable {K V : Type} [DecidableEq K] [LT K] [DecidableRel (α := K) (· < ·)]

/-- The call `m.find(k)`: `none` stands for `m.end()`. -/
def find : List (K × V) → K → Option V
  | [], _ => none
  | (k', v) :: m, k => if k = k' then some v else find m k

/-- Put a new key at its place in key order. -/
def place : List (K × V) → K → V → List (K × V)
  | [], k, v => [(k, v)]
  | (k', v') :: m, k, v =>
    if k < k' then (k, v) :: (k', v') :: m else (k', v') :: place m k v

/-- The call `m.insert(pair(k, v))`: nothing happens when `k` is already a key. -/
def insert (m : List (K × V)) (k : K) (v : V) : List (K × V) :=
  match find m k with
  | some _ => m
  | none => place m k v

/-- The expression `m[k]`: the mapped value, and the map afterwards; an absent key
is first inserted with the value-initialised `dflt`. -/
def subscript (m : List (K × V)) (k : K) (dflt : V) : V × List (K × V) :=
  match find m k with
  | some v => (v, m)
  | none => (dflt, place m k dflt)

/-- Assignment through a reference or pointer to the value mapped at `k`. -/
def assign : List (K × V) → K → V → List (K × V)
  | [], _, _ => []
  | (k', v') :: m, k, v => if k = k' then (k', v) :: m else (k', v') :: assign m k v

end Map

/-! ## Value model (`expfw.h`) -/

/-- A flag identifier: `typedef int FlagID`. -/
abbrev FlagID := Int

def INVALID_FLAG_ID : FlagID := -1

inductive FlagValueType
  | FV_TYPE_BOOL
  | FV_TYPE_INT32
  | FV_TYPE_UINT32
  | FV_TYPE_FLOAT
deriving DecidableEq

/-- The union `FlagValue`, tagged with the member that was written. A `float` is
carried as its bit pattern. -/
inductive FlagValue
  | _bool_value (b : Bool)
  | _int32_value (i : Int)
  | _uint32_value (u : Nat)
  | _float_value (bits : Nat)
deriving DecidableEq

/-- The members of a `type_traits<T>` specialisation. `raw_to_flag_value` takes a
`const char*`; its result is `none` where the C code has no defined result. -/
structure type_traits (T : Type) where
  to_type : FlagValueType
  value_to_flag_value : T → FlagValue
  flag_value_to_value : FlagValue → Option T
  default_value : T
  raw_to_flag_value : Option Str → Option FlagValue

/-- The specialisation `type_traits<bool>`. -/
def type_traits_bool : type_traits Bool where
  to_type := FlagValueType.FV_TYPE_BOOL
  value_to_flag_value := fun value => FlagValue._bool_value value
  flag_value_to_value := fun fv =>
    match fv with
    | FlagValue._bool_value b => some b
    | _ => none
  default_value := false
  raw_to_flag_value := fun v =>
    match v with
    | none => none
    | some p =>
      let s := c_string p
      if s = "true".toList ∨ s = "1".toList then some (FlagValue._bool_value true)
      else if s = "false".toList ∨ s = "0".toList then some (FlagValue._bool_value false)
      else some (FlagValue._bool_value false)

/-- The specialisation `type_traits<int32_t>`. -/
def type_traits_int32_t : type_traits Int where
  to_type := FlagValueType.FV_TYPE_INT32
  value_to_flag_value := fun value => FlagValue._int32_value value
  flag_value_to_value := fun fv =>
    match fv with
    | FlagValue._int32_value i => some i
    | _ => none
  default_value := 0
  raw_to_flag_value := fun v =>
    match v with
    | none => some (FlagValue._int32_value 0)
    | some p =>
      let s := c_string p
      let r := strtoll s
      if r.erange = true ∨ r.endp ≠ s.length then some (FlagValue._int32_value 0)
      else some (FlagValue._int32_value (to_int32 r.value))

/-- The specialisation `type_traits<uint32_t>`. -/
def type_traits_uint32_t : type_traits Nat where
  to_type := FlagValueType.FV_TYPE_UINT32
  value_to_flag_value := fun value => FlagValue._uint32_value value
  flag_value_to_value := fun fv =>
    match fv with
    | FlagValue._uint32_value u => some u
    | _ => none
  default_value := 0
  raw_to_flag_value := fun v =>
    match v with
    | none => some (FlagValue._uint32_value 0)
    | some p =>
      let s := c_string p
      let r := strtoull s
      if r.erange = true ∨ r.endp ≠ s.length then some (FlagValue._uint32_value 0)
      else some (FlagValue._uint32_value (to_uint32 r.value))

/-- The specialisation `type_traits<float>`; the bit pattern of `0.0f` is 0. -/
def type_traits_float (L : Lib) : type_traits Nat where
  to_type := FlagValueType.FV_TYPE_FLOAT
  value_to_flag_value := fun value => FlagValue._float_value value
  flag_value_to_value := fun fv =>
    match fv with
    | FlagValue._float_value f => some f
    | _ => none
  default_value := 0
  raw_to_flag_value := fun v =>
    match v with
    | none => some (FlagValue._float_value 0)
    | some p =>
      let s := c_string p
      let r := L.strtod s
      if r.erange = true ∨ r.endp ≠ s.length then some (FlagValue._float_value 0)
      else some (FlagValue._float_value r.value)

/-- The C++ type `T` of each scalar kind. -/
def FlagValueType.value_type : FlagValueType → Type
  | FlagValueType.FV_TYPE_BOOL => Bool
  | FlagValueType.FV_TYPE_INT32 => Int
  | FlagValueType.FV_TYPE_UINT32 => Nat
  | FlagValueType.FV_TYPE_FLOAT => Nat

/-- The four specialisations of `type_traits`, by kind. -/
def traits (L : Lib) : (k : FlagValueType) → type_traits k.value_type
  | FlagValueType.FV_TYPE_BOOL => type_traits_bool
  | FlagValueType.FV_TYPE_INT32 => type_traits_int32_t
  | FlagValueType.FV_TYPE_UINT32 => type_traits_uint32_t
  | FlagValueType.FV_TYPE_FLOAT => type_traits_float L

/-! ## Flags, the registry and the logging sink -/

structure Flag where
  _flag_value : FlagValue
  _type : FlagValueType
  _flag_name : Str
deriving DecidableEq

/-- A value-initialised `Flag`, as `operator[]` of a `FlagMap` creates it. -/
def Flag.value_init : Flag := ⟨FlagValue._bool_value false, FlagValueType.FV_TYPE_BOOL, []⟩

abbrev FlagMap := List (FlagID × Flag)

inductive Severity
  | WARNING
  | ERROR
  | FATAL
deriving DecidableEq

/-- Modelled from the spec: the logging facility behind `LOG(severity)` (the header
`glog/logging.h` is not part of the sources) is a sink that records a diagnostic with
its severity; execution continues with the statement after the `LOG` line. -/
structure LogEntry where
  severity : Severity
  message : Str
deriving DecidableEq

/-- The template `FlagRegistry::register_flag<T>`, on the registry's static map:
the id returned, the map afterwards and the diagnostics emitted. -/
def register_flag (L : Lib) {T : Type} (tt : type_traits T) (default_flag_map : FlagMap)
    (flag_name : Option Str) (value : T) : FlagID × FlagMap × List LogEntry :=
  match flag_name with
  | none => (INVALID_FLAG_ID, default_flag_map, [⟨Severity.FATAL, "empty flag name\n".toList⟩])
  | some p =>
    let flag_id := L.string_hash (c_string p)
    if Map.find default_flag_map flag_id ≠ none then
      let r := Map.subscript default_flag_map flag_id Flag.value_init
      (INVALID_FLAG_ID, r.2,
        [⟨Severity.FATAL, "exp flag [".toList ++ c_string p ++ "]is conflict with [".toList
            ++ r.1._flag_name ++ "]\n".toList⟩])
    else
      let flag : Flag := ⟨tt.value_to_flag_value value, tt.to_type, c_string p⟩
      (flag_id, Map.insert default_flag_map flag_id flag, [])

/-! ## The environment (`expfw.cpp`) -/

/-- The type `ExpidFlagMap`: experiment id to `FlagMap*`; `none` is a NULL pointer and
`some fm` a pointer to the map `fm`, which the environment owns. -/
abbrev ExpidFlagMap := List (Str × Option FlagMap)

/-- The members of `ExpEnvironment`, with the diagnostics emitted so far. -/
structure ExpEnvironment where
  _p_expid_flag_map : ExpidFlagMap
  _p_default_flag_map : FlagMap
  glog : List LogEntry
deriving DecidableEq

/-- The statement `LOG(severity) << message`. -/
def ExpEnvironment.LOG (env : ExpEnvironment) (severity : Severity) (message : Str) :
    ExpEnvironment :=
  { env with glog := env.glog ++ [⟨severity, message⟩] }

/-- The member function `ExpEnvironment::set_exp_flag_value`: the value returned and
the environment afterwards; `none` when a NULL `FlagMap*` is dereferenced. -/
def set_exp_flag_value (L : Lib) (env : ExpEnvironment) (expid flag_name value : Str) :
    Option (Bool × ExpEnvironment) :=
  let flag_id := L.string_hash flag_name
  if Map.find env._p_default_flag_map flag_id = none then some (false, env)
  else
    let d := Map.subscript env._p_default_flag_map flag_id Flag.value_init
    let default_flag := d.1
    let parsed :=
      match default_flag._type with
      | FlagValueType.FV_TYPE_BOOL => type_traits_bool.raw_to_flag_value (some value)
      | FlagValueType.FV_TYPE_INT32 => type_traits_int32_t.raw_to_flag_value (some value)
      | FlagValueType.FV_TYPE_UINT32 => type_traits_uint32_t.raw_to_flag_value (some value)
      | FlagValueType.FV_TYPE_FLOAT => (type_traits_float L).raw_to_flag_value (some value)
    match parsed with
    | none => none
    | some fv =>
      let flag : Flag := ⟨fv, default_flag._type, default_flag._flag_name⟩
      let e := Map.subscript env._p_expid_flag_map expid none
      match e.1 with
      | none => none
      | some fm =>
        some (true, { env with
          _p_default_flag_map := d.2
          _p_expid_flag_map := Map.assign e.2 expid (some (Map.insert fm flag_id flag)) })

/-- One iteration of the `while (getline(ifs, tmp))` loop of `load_exp_config`, on
the local `current_exp_id` and the environment. -/
def load_line (L : Lib) (file_path : Str) (st : Str × ExpEnvironment) (line : Str) :
    Option (Str × ExpEnvironment) :=
  let tmp := trim line
  if tmp.length = 0 ∨ tmp.head? = some '#' then some st
  else if tmp.head? = some '[' ∧ tmp.getLast? = some ']' then
    let current_exp_id := trim (substr tmp 1 (tmp.length - 2))
    if Map.find st.2._p_expid_flag_map current_exp_id = none then
      some (current_exp_id, { st.2 with
        _p_expid_flag_map := Map.insert st.2._p_expid_flag_map current_exp_id (some []) })
    else
      some (current_exp_id, st.2.LOG Severity.FATAL
        ("exp_id [".toList ++ current_exp_id ++ "] has been used before\n".toList))
  else
    match find_char tmp '=' with
    | none =>
      some (st.1, st.2.LOG Severity.FATAL
        ("Illegal exp flag line in ".toList ++ file_path ++ ":".toList ++ tmp ++ "\n".toList))
    | some pos =>
      let flag_name := trim (substr tmp 0 pos)
      let value := trim (substr tmp (pos + 1) (tmp.length - 1))
      if Map.find st.2._p_expid_flag_map st.1 = none then
        some (st.1, st.2.LOG Severity.FATAL
          ("Don't know this flag[".toList ++ tmp ++ "]belongs to which expid\n".toList))
      else
        match set_exp_flag_value L st.2 st.1 flag_name value with
        | none => none
        | some r =>
          if r.1 = true then some (st.1, r.2)
          else some (st.1, r.2.LOG Severity.FATAL
            ("Set exp flag failed: ".toList ++ tmp ++ "\n".toList))

/-- The `while` loop of `load_exp_config` over the lines of the file. -/
def load_lines (L : Lib) (file_path : Str) :
    Str × ExpEnvironment → List Str → Option (Str × ExpEnvironment)
  | st, [] => some st
  | st, line :: rest =>
    match load_line L file_path st line with
    | none => none
    | some st1 => load_lines L file_path st1 rest

/-- The member function `ExpEnvironment::load_exp_config`. The file system `fs` gives
the contents of the files that can be opened. -/
def load_exp_config (L : Lib) (fs : Str → Option Str) (env : ExpEnvironment)
    (file_path : Option Str) : Option ExpEnvironment :=
  let env0 : ExpEnvironment := { env with _p_expid_flag_map := [] }
  match file_path with
  | none => some (env0.LOG Severity.FATAL "exp config file_path = NULL\n".toList)
  | some p =>
    match fs (c_string p) with
    | none => some (env0.LOG Severity.FATAL "open exp config failed\n".toList)
    | some contents =>
      (load_lines L (c_string p) ([], env0) (getlines contents)).map (fun st => st.2)

/-- The constructor `ExpEnvironment()`: bind the registry's map and load `exp.conf`. -/
def ExpEnvironment.create (L : Lib) (fs : Str → Option Str) (default_flag_map : FlagMap) :
    Option ExpEnvironment :=
  load_exp_config L fs ⟨[], default_flag_map, []⟩ (some "exp.conf".toList)

/-- The template `ExpEnvironment::get_default_value<T>`. -/
def get_default_value {T : Type} (tt : type_traits T) (env : ExpEnvironment)
    (flag_id : FlagID) : Option T × ExpEnvironment :=
  if Map.find env._p_default_flag_map flag_id = none then
    (some tt.default_value,
      env.LOG Severity.WARNING "Unknown exp flag, return default type value\n".toList)
  else
    let d := Map.subscript env._p_default_flag_map flag_id Flag.value_init
    (tt.flag_value_to_value d.1._flag_value, { env with _p_default_flag_map := d.2 })

/-- The template `ExpEnvironment::get_exp_value<T>`: the value returned (`none` when
the union member read is not the one stored) and the environment afterwards. -/
def get_exp_value {T : Type} (tt : type_traits T) (env : ExpEnvironment)
    (exp_id : Option Str) (flag_id : FlagID) : Option T × ExpEnvironment :=
  match exp_id with
  | none =>
    get_default_value tt
      (env.LOG Severity.WARNING
        "NULL exp_id or invalid flag_id, return default flag value.\n".toList) flag_id
  | some p =>
    if INVALID_FLAG_ID = flag_id then
      get_default_value tt
        (env.LOG Severity.WARNING
          "NULL exp_id or invalid flag_id, return default flag value.\n".toList) flag_id
    else if Map.find env._p_expid_flag_map (c_string p) ≠ none then
      let e := Map.subscript env._p_expid_flag_map (c_string p) none
      let env1 : ExpEnvironment := { env with _p_expid_flag_map := e.2 }
      match e.1 with
      | none => get_default_value tt env1 flag_id
      | some fm =>
        if Map.find fm flag_id = none then get_default_value tt env1 flag_id
        else
          let f := Map.subscript fm flag_id Flag.value_init
          (tt.flag_value_to_value f.1._flag_value,
            { env1 with _p_expid_flag_map := Map.assign e.2 (c_string p) (some f.2) })
    else
      get_default_value tt
        (env.LOG Severity.WARNING
          ("Unknown exp_id, return default flag value.".toList ++ c_string p ++ "\n".toList))
        flag_id

def get_bool (env : ExpEnvironment) (exp_id : Option Str) (flag_id : FlagID) :=
  get_exp_value type_traits_bool env exp_id flag_id

def get_int32 (env : ExpEnvironment) (exp_id : Option Str) (flag_id : FlagID) :=
  get_exp_value type_traits_int32_t env exp_id flag_id

def get_uint32 (env : ExpEnvironment) (exp_id : Option Str) (flag_id : FlagID) :=
  get_exp_value type_traits_uint32_t env exp_id flag_id

def get_float (L : Lib) (env : ExpEnvironment) (exp_id : Option Str) (flag_id : FlagID) :=
  get_exp_value (type_traits_float L) env exp_id flag_id

/-! ## Vocabulary of the properties -/

/-- A flag of kind `k` named `name` is registered in `dm` with default `d`: the entry
that `register_flag` inserts for it is present under the hash of the name. -/
def registered (L : Lib) (k : FlagValueType) (dm : FlagMap) (name : Str)
    (d : k.value_type) : Prop :=
  Map.find dm (L.string_hash name) =
    some ⟨(traits L k).value_to_flag_value d, (traits L k).to_type, name⟩

instance (L : Lib) (k : FlagValueType) (dm : FlagMap) (name : Str) (d : k.value_type) :
    Decidable (registered L k dm name d) := by
  unfold registered
  infer_instance

/-- A sign as `strtoll` accepts it: nothing, a plus or a minus. -/
def is_sign (s : Str) : Prop := s = [] ∨ s = ['+'] ∨ s = ['-']

instance (s : Str) : Decidable (is_sign s) := by
  unfold is_sign
  infer_instance

/-- The four kinds of line the loop of `load_exp_config` distinguishes, in the order
of its tests: skipped (blank or comment), section header with its trimmed id, line
without `=`, and assignment with its trimmed name and value. -/
inductive LineKind
  | skip
  | header (id : Str)
  | illegal
  | assignment (name value : Str)
deriving DecidableEq

/-- The kind of a line of the configuration file, by the tests of `load_exp_config`. -/
def line_kind (line : Str) : LineKind :=
  let tmp := trim line
  if tmp.length = 0 ∨ tmp.head? = some '#' then LineKind.skip
  else if tmp.head? = some '[' ∧ tmp.getLast? = some ']' then
    LineKind.header (trim (substr tmp 1 (tmp.length - 2)))
  else
    match find_char tmp '=' with
    | none => LineKind.illegal
    | some pos =>
      LineKind.assignment (trim (substr tmp 0 pos)) (trim (substr tmp (pos + 1) (tmp.length - 1)))

/-- The override entry for an experiment id and a flag id, if the table has one. -/
def override_entry (em : ExpidFlagMap) (e : Str) (flag_id : FlagID) : Option Flag :=
  match Map.find em e with
  | some (some fm) => Map.find fm flag_id
  | _ => none

/-- No `FlagMap*` stored in the table is NULL. -/
def nonnull (em : ExpidFlagMap) : Prop := ∀ e, Map.find em e ≠ some none

/-- The value `raw_to_flag_value` of kind `k` gives for the text of a `std::string`. -/
def raw_value (L : Lib) (k : FlagValueType) (value : Str) : FlagValue :=
  ((traits L k).raw_to_flag_value (some value)).getD (FlagValue._bool_value false)

/-- The flag `set_exp_flag_value` builds from the default `d` and the text `value`. -/
def override_flag (L : Lib) (d : Flag) (value : Str) : Flag :=
  ⟨raw_value L d._type value, d._type, d._flag_name⟩

/-- The environment after the `FlagMap` that the pointer stored for `expid` points to
has become `fm`. -/
def with_flag_map (env : ExpEnvironment) (expid : Str) (fm : FlagMap) : ExpEnvironment :=
  { env with _p_expid_flag_map := Map.assign env._p_expid_flag_map expid (some fm) }

/-- The environment after a new, empty `FlagMap` has been inserted for `expid`. -/
def with_section (env : ExpEnvironment) (expid : Str) : ExpEnvironment :=
  { env with _p_expid_flag_map := Map.insert env._p_expid_flag_map expid (some []) }

/-- The part of the loop state the tables consist of: the current experiment id, the
override table and the Default Flag Map (everything but the diagnostics). -/
def tables (st : Str × ExpEnvironment) : Str × ExpidFlagMap × FlagMap :=
  (st.1, st.2._p_expid_flag_map, st.2._p_default_flag_map)

/-- A line the loader passes over: blank or comment, a line without `=` that is no
header, or an assignment to a name whose hash is no key of the Default Flag Map. -/
def passed_over (L : Lib) (default_flag_map : FlagMap) (l : Str) : Prop :=
  line_kind l = LineKind.skip ∨ line_kind l = LineKind.illegal ∨
    ∃ name value, line_kind l = LineKind.assignment name value ∧
      Map.find default_flag_map (L.string_hash name) = none

/-- Decimal digits of `n`, most significant first; `fuel` bounds the number of digits. -/
def decimal : Nat → Nat → Str
  | 0, _ => []
  | fuel + 1, n =>
    if n < 10 then [Char.ofNat (48 + n)]
    else decimal fuel (n / 10) ++ [Char.ofNat (48 + n % 10)]

/-- The base-10 text of a natural number. -/
def nat_text (n : Nat) : Str := decimal (n + 1) n

/-- The base-10 text of an integer: a minus sign for negative numbers, then the digits. -/
def int_text (n : Int) : Str := if n < 0 then '-' :: nat_text n.natAbs else nat_text n.natAbs

/-- The keys of the list are pairwise distinct, as the keys of a `std::map` are. -/
def Map.distinct_keys {K V : Type} (m : List (K × V)) : Prop := (m.map Prod.fst).Nodup

instance {K V : Type} [DecidableEq K] (m : List (K × V)) : Decidable (Map.distinct_keys m) := by
  unfold Map.distinct_keys
  infer_instance

/-- The override table and every `FlagMap` it points to have distinct keys. -/
def tables_distinct (em : ExpidFlagMap) : Prop :=
  Map.distinct_keys em ∧ ∀ e fm, (e, some fm) ∈ em → Map.distinct_keys fm

/-- Every override entry was built by `set_exp_flag_value` from the default entry of
its flag id and some text. -/
def from_defaults (L : Lib) (em : ExpidFlagMap) (dm : FlagMap) : Prop :=
  ∀ e fid f, override_entry em e fid = some f →
    ∃ d value, Map.find dm fid = some d ∧ f = override_flag L d value

/-- Every entry of every `FlagMap` of the override table has a flag id that is a key
of the Default Flag Map, and the type tag and the name of the default entry. -/
def typed_by_defaults (em : ExpidFlagMap) (dm : FlagMap) : Prop :=
  ∀ e fm fid f, (e, some fm) ∈ em → (fid, f) ∈ fm →
    ∃ d, Map.find dm fid = some d ∧ f._type = d._type ∧ f._flag_name = d._flag_name

/-- The id of the last header line among the lines, if there is one. -/
def last_header : List Str → Option Str
  | [] => none
  | l :: rest =>
    match last_header rest with
    | some id => some id
    | none =>
      match line_kind l with
      | LineKind.header id => some id
      | _ => none

/-- Every character of the string is whitespace. -/
def all_space (s : Str) : Prop := ∀ c ∈ s, isspace c = true

instance (s : Str) : Decidable (all_space s) := by
  unfold all_space
  infer_instance

/-- The functions `boost::trim_left` and `boost::trim_right`, of which `trim` is the
composition. -/
def ltrim (s : Str) : Str := s.dropWhile isspace

def rtrim (s : Str) : Str := (s.reverse.dropWhile isspace).reverse

/-- Two lines that differ only by whitespace around the whole line, around the section
name between the brackets of a header line, or around the name and the value on the
two sides of the first `=` of an assignment line; whitespace may be added or removed,
in any number of steps. -/
inductive same_up_to_whitespace : Str → Str → Prop
  | refl (l : Str) : same_up_to_whitespace l l
  | symm {l l1 : Str} : same_up_to_whitespace l l1 → same_up_to_whitespace l1 l
  | trans {l l1 l2 : Str} : same_up_to_whitespace l l1 → same_up_to_whitespace l1 l2 →
      same_up_to_whitespace l l2
  | around_line (l a b : Str) : all_space a → all_space b →
      same_up_to_whitespace l (a ++ l ++ b)
  | around_section_name (name a b : Str) : all_space a → all_space b →
      same_up_to_whitespace ('[' :: (name ++ [']'])) ('[' :: ((a ++ name ++ b) ++ [']']))
  | around_name_and_value (name value a b c d : Str) :
      all_space a → all_space b → all_space c → all_space d → '=' ∉ name →
      (∃ n v, line_kind (name ++ '=' :: value) = LineKind.assignment n v) →
      same_up_to_whitespace (name ++ '=' :: value)
        ((a ++ name ++ b) ++ '=' :: (c ++ value ++ d))

/-! ## Printing (`expfw.cpp`) -/

/-- The member function `print_one_flag`: the entry it logs. `float_text` is the text
that `operator<<` writes for a `float`; the result is `none` when the union member
read is not the one stored. The read in the last case is
`type_traits<float>::flag_value_to_value`, which does not depend on the library. -/
def print_one_flag (float_text : Nat → Str) (flag : Flag) : Option (List LogEntry) :=
  match flag._type with
  | FlagValueType.FV_TYPE_BOOL =>
    (type_traits_bool.flag_value_to_value flag._flag_value).map (fun v =>
      [⟨Severity.ERROR, "bool  : ".toList ++ flag._flag_name ++ "=".toList
        ++ (if v = true then "1".toList else "0".toList) ++ "\n".toList⟩])
  | FlagValueType.FV_TYPE_INT32 =>
    (type_traits_int32_t.flag_value_to_value flag._flag_value).map (fun v =>
      [⟨Severity.ERROR, "int32 : ".toList ++ flag._flag_name ++ "=".toList
        ++ int_text v ++ "\n".toList⟩])
  | FlagValueType.FV_TYPE_UINT32 =>
    (type_traits_uint32_t.flag_value_to_value flag._flag_value).map (fun v =>
      [⟨Severity.ERROR, "uint32: ".toList ++ flag._flag_name ++ "=".toList
        ++ nat_text v ++ "\n".toList⟩])
  | FlagValueType.FV_TYPE_FLOAT =>
    (match flag._flag_value with
      | FlagValue._float_value f => some f
      | _ => none).map (fun v =>
      [⟨Severity.ERROR, "float : ".toList ++ flag._flag_name ++ "=".toList
        ++ float_text v ++ "\n".toList⟩])

/-- The loop of `print_one_flagmap`: `print_one_flag` on each entry, in key order. -/
def print_entries (float_text : Nat → Str) : FlagMap → Option (List LogEntry)
  | [] => some []
  | kv :: rest =>
    match print_one_flag float_text kv.2 with
    | none => none
    | some a => (print_entries float_text rest).map (fun b => a ++ b)

/-- The member function `print_one_flagmap`, on a `const FlagMap*`. -/
def print_one_flagmap (float_text : Nat → Str) (_p_flag_map : Option FlagMap) :
    Option (List LogEntry) :=
  match _p_flag_map with
  | none => none
  | some fm => print_entries float_text fm

/-- The loop of `print_exp_environment` over the experiments, in key order. -/
def print_sections (float_text : Nat → Str) : ExpidFlagMap → Option (List LogEntry)
  | [] => some []
  | kv :: rest =>
    match print_one_flagmap float_text kv.2 with
    | none => none
    | some a =>
      (print_sections float_text rest).map (fun b =>
        ⟨Severity.ERROR, "-------- ".toList ++ kv.1 ++ " ----------\n".toList⟩ :: (a ++ b))

/-- The member function `print_exp_environment`: the environment with the entries it
logs. -/
def print_exp_environment (float_text : Nat → Str) (env : ExpEnvironment) :
    Option ExpEnvironment :=
  match print_one_flagmap float_text (some env._p_default_flag_map) with
  | none => none
  | some a =>
    (print_sections float_text env._p_expid_flag_map).map (fun b =>
      { env with glog := env.glog ++
        ⟨Severity.ERROR, "-------- default flag map ------------\n".toList⟩ :: (a ++ b) })

/-! ## Termination by the logging facility -/

/-- Modelled from the spec: the diagnostics on which glog terminates the process,
those of severity FATAL (the header `glog/logging.h` is not part of the sources; the
spec, section 7, calls the FATAL severity process-terminating and lists the duplicate
experiment section under it). -/
def glog_aborts (entry : LogEntry) : Bool := decide (entry.severity = Severity.FATAL)

/-- The loop of `load_exp_config` under a logging facility that terminates the process
on the diagnostics selected by `aborts`: whether the process was terminated, and the
state reached. Every `LOG` statement of the loop body is the last statement of its
branch, so the state after an iteration that logged is the state at the `LOG`. -/
def load_lines_glog (aborts : LogEntry → Bool) (L : Lib) (file_path : Str) :
    Str × ExpEnvironment → List Str → Option (Bool × (Str × ExpEnvironment))
  | st, [] => some (false, st)
  | st, line :: rest =>
    match load_line L file_path st line with
    | none => none
    | some st1 =>
      if (st1.2.glog.drop st.2.glog.length).any aborts = true then some (true, st1)
      else load_lines_glog aborts L file_path st1 rest

/-- The member function `load_exp_config` under a logging facility that terminates
the process on the diagnostics selected by `aborts`: whether the process was
terminated, and the environment at that point or at the return. -/
def load_exp_config_glog (aborts : LogEntry → Bool) (L : Lib) (fs : Str → Option Str)
    (env : ExpEnvironment) (file_path : Option Str) : Option (Bool × ExpEnvironment) :=
  let env0 : ExpEnvironment := { env with _p_expid_flag_map := [] }
  match file_path with
  | none =>
    some (aborts ⟨Severity.FATAL, "exp config file_path = NULL\n".toList⟩,
      env0.LOG Severity.FATAL "exp config file_path = NULL\n".toList)
  | some p =>
    match fs (c_string p) with
    | none =>
      some (aborts ⟨Severity.FATAL, "open exp config failed\n".toList⟩,
        env0.LOG Severity.FATAL "open exp config failed\n".toList)
    | some contents =>
      (load_lines_glog aborts L (c_string p) ([], env0) (getlines contents)).map
        (fun r => (r.1, r.2.2))

/-! ## A test configuration -/

/-- A small hash for examples: the sum of the character codes. -/
def sum_hash (s : Str) : Int := (s.map (fun c => (c.toNat : Int))).sum

def test_lib : Lib := ⟨sum_hash, fun _ => ⟨0, 0, false⟩⟩

/-- The registry after `DEFINE_INT32(f, 7)`, `DEFINE_BOOL(b, true)` and
`DEFINE_UINT32(u, 5)`. -/
def test_default_flag_map : FlagMap :=
  let r1 := register_flag test_lib type_traits_int32_t [] (some "f".toList) 7
  let r2 := register_flag test_lib type_traits_bool r1.2.1 (some "b".toList) true
  let r3 := register_flag test_lib type_traits_uint32_t r2.2.1 (some "u".toList) 5
  r3.2.1

/-- A hash that maps every name to the value of `INVALID_FLAG_ID`. -/
def sentinel_lib : Lib := ⟨fun _ => -1, fun _ => ⟨0, 0, false⟩⟩

/-- An environment before `load_exp_config`, bound to the test registry. -/
def test_env : ExpEnvironment := ⟨[], test_default_flag_map, []⟩

/-- A file system holding one file `exp.conf` with the given text. -/
def test_fs (text : String) : Str → Option Str :=
  fun path => if path = "exp.conf".toList then some text.toList else none

end exp_flag

/-! ## Lemmas on lists and maps -/

namespace exp_flag

theorem takeWhile_all_append {α : Type} (p : α → Bool) (xs ys : List α)
    (h : ∀ x ∈ xs, p x = true) : (xs ++ ys).takeWhile p = xs ++ ys.takeWhile p := by
  induction xs with
  | nil => rfl
  | cons a t ih =>
    have ha : p a = true := h a (List.mem_cons_self a t)
    have ht : ∀ x ∈ t, p x = true := fun x hx => h x (List.mem_cons_of_mem a hx)
    simp [List.takeWhile, ha, ih ht]

theorem dropWhile_all_append {α : Type} (p : α → Bool) (xs ys : List α)
    (h : ∀ x ∈ xs, p x = true) : (xs ++ ys).dropWhile p = ys.dropWhile p := by
  induction xs with
  | nil => rfl
  | cons a t ih =>
    have ha : p a = true := h a (List.mem_cons_self a t)
    have ht : ∀ x ∈ t, p x = true := fun x hx => h x (List.mem_cons_of_mem a hx)
    simp [List.dropWhile, ha, ih ht]

namespace Map

variable {K V : Type} [DecidableEq K] [LT K] [DecidableRel (α := K) (· < ·)]

theorem find_place (m : List (K × V)) (k : K) (v : V) (x : K) (h : find m k = none) :
    find (place m k v) x = if x = k then some v else find m x := by
  induction m with
  | nil => simp [place, find]
  | cons e m ih =>
    obtain ⟨k1, v1⟩ := e
    have hk : k ≠ k1 := by
      intro hk
      simp [find, hk] at h
    have hm : find m k = none := by
      simpa [find, hk] using h
    by_cases hlt : k < k1
    · simp [place, hlt, find]
    · by_cases hx : x = k
      · subst hx
        simp [place, hlt, find, hk, ih hm]
      · simp [place, hlt, find, hx, ih hm]

theorem find_insert_new (m : List (K × V)) (k : K) (v : V) (x : K) (h : find m k = none) :
    find (insert m k v) x = if x = k then some v else find m x := by
  simp [insert, h, find_place m k v x h]

theorem insert_present (m : List (K × V)) (k : K) (v w : V) (h : find m k = some w) :
    insert m k v = m := by
  simp [insert, h]

theorem subscript_present (m : List (K × V)) (k : K) (d w : V) (h : find m k = some w) :
    subscript m k d = (w, m) := by
  simp [subscript, h]

end Map

namespace Map

theorem find_assign {K V : Type} [DecidableEq K] (m : List (K × V)) (k : K) (v : V) (x : K) :
    find (assign m k v) x = if x = k then (find m k).map (fun _ => v) else find m x := by
  induction m with
  | nil => simp [assign, find]
  | cons e m ih =>
    obtain ⟨k1, v1⟩ := e
    by_cases hk : k = k1
    · subst hk
      by_cases hx : x = k
      · simp [assign, find, hx]
      · simp [assign, find, hx]
    · by_cases hx : x = k
      · subst hx
        simp [assign, find, hk, ih]
      · by_cases hx1 : x = k1
        · subst hx1
          simp [assign, find, hk, hx]
        · simp [assign, find, hk, hx1, hx, ih]

end Map

end exp_flag

/-! ## The value model: parsing -/

namespace exp_flag

theorem traits_roundtrip (L : Lib) (k : FlagValueType) (d : k.value_type) :
    (traits L k).flag_value_to_value ((traits L k).value_to_flag_value d) = some d := by
  cases k <;> rfl

theorem c_string_of_no_nul (t : Str) (h : ∀ c ∈ t, c.toNat ≠ 0) : c_string t = t := by
  unfold c_string
  rw [List.takeWhile_eq_self_iff]
  intro c hc
  simpa using h c hc

theorem isdigit_not_nul (c : Char) (h : isdigit c = true) : (c.toNat != 0) = true := by
  simp only [isdigit, Bool.and_eq_true, decide_eq_true_eq] at h
  simp only [bne_iff_ne, ne_eq]
  omega

theorem isspace_not_nul (c : Char) (h : isspace c = true) : (c.toNat != 0) = true := by
  simp only [isspace, Bool.or_eq_true, beq_iff_eq, Bool.and_eq_true, decide_eq_true_eq] at h
  simp only [bne_iff_ne, ne_eq]
  omega

theorem isspace_not_digit (c : Char) (h : isdigit c = true) : isspace c = false := by
  simp only [isdigit, Bool.and_eq_true, decide_eq_true_eq] at h
  cases hs : isspace c with
  | false => rfl
  | true =>
    simp only [isspace, Bool.or_eq_true, beq_iff_eq, Bool.and_eq_true, decide_eq_true_eq] at hs
    omega

/-- Scanning whitespace, a sign and digits, followed by a rest that does not start
with a digit: the subject is exactly the sign and the digits. -/
theorem scan_subject_stops (ws sign ds r : Str)
    (hws : ∀ x ∈ ws, isspace x = true) (hsign : is_sign sign)
    (hds : ds ≠ []) (hdig : ∀ x ∈ ds, isdigit x = true) (hr : r.takeWhile isdigit = []) :
    scan_subject (ws ++ (sign ++ (ds ++ r))) =
      ⟨ws.length, decide (sign = ['-']), sign.length, ds⟩ := by
  obtain ⟨a, t, rfl⟩ := List.exists_cons_of_ne_nil hds
  have ha : isdigit a = true := hdig a (List.mem_cons_self a t)
  have hasp : isspace a = false := isspace_not_digit a ha
  have htake : (a :: (t ++ r)).takeWhile isdigit = a :: t := by
    have h := takeWhile_all_append isdigit (a :: t) r hdig
    simpa [hr] using h
  have hne1 : a ≠ '-' := by
    intro h
    rw [h] at ha
    exact absurd ha (by decide)
  have hne2 : a ≠ '+' := by
    intro h
    rw [h] at ha
    exact absurd ha (by decide)
  have hwsT : ∀ (b : Char) (r : Str), isspace b = false →
      (ws ++ b :: r).takeWhile isspace = ws ∧ (ws ++ b :: r).dropWhile isspace = b :: r := by
    intro b r hb
    rw [takeWhile_all_append isspace ws (b :: r) hws,
      dropWhile_all_append isspace ws (b :: r) hws]
    simp [List.takeWhile, List.dropWhile, hb]
  rcases hsign with h | h | h
  · subst h
    obtain ⟨h1, h2⟩ := hwsT a (t ++ r) hasp
    simp only [List.nil_append, List.cons_append] at *
    simp only [scan_subject, h1, h2]
    simp [hne1, hne2, htake]
  · subst h
    obtain ⟨h1, h2⟩ := hwsT '+' (a :: (t ++ r)) (by decide)
    simp only [List.nil_append, List.cons_append] at *
    simp only [scan_subject, h1, h2]
    have hpm : ('+' : Char) ≠ '-' := by decide
    simp [hpm, htake]
  · subst h
    obtain ⟨h1, h2⟩ := hwsT '-' (a :: (t ++ r)) (by decide)
    simp only [List.nil_append, List.cons_append] at *
    simp only [scan_subject, h1, h2]
    simp [htake]

theorem strtoll_endp (v : Str) (h : (scan_subject v).digits ≠ []) :
    (strtoll v).endp =
      (scan_subject v).ws + (scan_subject v).signlen + (scan_subject v).digits.length := by
  unfold strtoll
  simp only [h, if_false]
  split_ifs <;> rfl

theorem strtoull_endp (v : Str) (h : (scan_subject v).digits ≠ []) :
    (strtoull v).endp =
      (scan_subject v).ws + (scan_subject v).signlen + (scan_subject v).digits.length := by
  unfold strtoull
  simp only [h, if_false]
  split_ifs <;> rfl

theorem c_string_garbage (ws sign ds : Str) (c : Char) (rest : Str)
    (hws : ∀ x ∈ ws, isspace x = true) (hsign : is_sign sign)
    (hdig : ∀ x ∈ ds, isdigit x = true) (hnul : c.toNat ≠ 0) :
    c_string (ws ++ (sign ++ (ds ++ c :: rest))) = ws ++ (sign ++ (ds ++ c :: c_string rest)) := by
  have hs : ∀ x ∈ sign, (x.toNat != 0) = true := by
    intro x hx
    rcases hsign with h | h | h <;> subst h <;> simp at hx <;> subst hx <;> decide
  unfold c_string
  rw [takeWhile_all_append _ ws _ (fun x hx => isspace_not_nul x (hws x hx)),
    takeWhile_all_append _ sign _ hs,
    takeWhile_all_append _ ds _ (fun x hx => isdigit_not_nul x (hdig x hx))]
  have hc : (c.toNat != 0) = true := by simpa using hnul
  simp only [List.takeWhile, hc]

/-! ## Claims on the value model and the registry -/

/-- C9: for the int32 parser and for the uint32 parser, a text made of an integer
(optional whitespace, optional sign, at least one digit) followed by a character that
is not a digit, and then anything, parses to the default value 0. -/
theorem trailing_garbage_parses_to_default (ws sign ds : Str) (c : Char) (rest : Str)
    (hws : ∀ x ∈ ws, isspace x = true) (hsign : is_sign sign)
    (hds : ds ≠ []) (hdig : ∀ x ∈ ds, isdigit x = true)
    (hc : isdigit c = false) (hnul : c.toNat ≠ 0) :
    type_traits_int32_t.raw_to_flag_value (some (ws ++ (sign ++ (ds ++ c :: rest))))
      = some (FlagValue._int32_value type_traits_int32_t.default_value) ∧
    type_traits_uint32_t.raw_to_flag_value (some (ws ++ (sign ++ (ds ++ c :: rest))))
      = some (FlagValue._uint32_value type_traits_uint32_t.default_value) ∧
    type_traits_int32_t.default_value = 0 ∧ type_traits_uint32_t.default_value = 0 := by
  have hcs := c_string_garbage ws sign ds c rest hws hsign hdig hnul
  have hscan := scan_subject_stops ws sign ds (c :: c_string rest) hws hsign hds hdig
    (by simp [List.takeWhile, hc])
  have hne : (scan_subject (ws ++ (sign ++ (ds ++ c :: c_string rest)))).digits ≠ [] := by
    rw [hscan]
    exact hds
  have hend : ws.length + sign.length + ds.length ≠
      (ws ++ (sign ++ (ds ++ c :: c_string rest))).length := by
    simp only [List.length_append, List.length_cons]
    omega
  refine ⟨?_, ?_, rfl, rfl⟩
  · simp only [type_traits_int32_t, hcs, strtoll_endp _ hne, hscan]
    rw [if_pos (Or.inr hend)]
  · simp only [type_traits_uint32_t, hcs, strtoull_endp _ hne, hscan]
    rw [if_pos (Or.inr hend)]

/-- The texts 12abc, 7.5 and 3 4 parse to 0 with both integer parsers. -/
theorem trailing_garbage_parses_to_default_witness :
    (type_traits_int32_t.raw_to_flag_value (some "12abc".toList)
      = some (FlagValue._int32_value type_traits_int32_t.default_value) ∧
    type_traits_uint32_t.raw_to_flag_value (some "12abc".toList)
      = some (FlagValue._uint32_value type_traits_uint32_t.default_value) ∧
    type_traits_int32_t.default_value = 0 ∧ type_traits_uint32_t.default_value = 0) ∧
    type_traits_int32_t.raw_to_flag_value (some "7.5".toList) = some (FlagValue._int32_value 0) ∧
    type_traits_uint32_t.raw_to_flag_value (some "3 4".toList) = some (FlagValue._uint32_value 0) :=
  ⟨trailing_garbage_parses_to_default [] [] "12".toList 'a' "bc".toList
      (by decide) (by decide) (by decide) (by decide) (by decide) (by decide),
    by decide, by decide⟩

/-- C8: what the integer parsers return for well-formed integers outside the 32-bit
range: below the 64-bit limits the value is reduced modulo 2^32 and not replaced by
the default; only beyond the range of `long long` / `unsigned long long` the default 0
is returned. -/
theorem out_of_range_integers_wrap :
    type_traits_int32_t.raw_to_flag_value (some "2147483648".toList)
      = some (FlagValue._int32_value (-2147483648)) ∧
    type_traits_uint32_t.raw_to_flag_value (some "4294967297".toList)
      = some (FlagValue._uint32_value 1) ∧
    type_traits_uint32_t.raw_to_flag_value (some "-1".toList)
      = some (FlagValue._uint32_value 4294967295) ∧
    type_traits_int32_t.raw_to_flag_value (some "9223372036854775808".toList)
      = some (FlagValue._int32_value 0) ∧
    type_traits_uint32_t.raw_to_flag_value (some "18446744073709551616".toList)
      = some (FlagValue._uint32_value 0) := by
  decide

/-- C10: when the hash of the name is already a key of the Default Flag Map,
`register_flag` returns `INVALID_FLAG_ID`, emits one FATAL diagnostic naming the
existing flag, and leaves the map as it was, so the existing entry is kept. -/
theorem register_flag_duplicate_rejected (L : Lib) {T : Type} (tt : type_traits T)
    (default_flag_map : FlagMap) (flag_name : Str) (value : T) (existing : Flag)
    (h : Map.find default_flag_map (L.string_hash (c_string flag_name)) = some existing) :
    register_flag L tt default_flag_map (some flag_name) value =
      (INVALID_FLAG_ID, default_flag_map,
        [⟨Severity.FATAL, "exp flag [".toList ++ c_string flag_name
          ++ "]is conflict with [".toList ++ existing._flag_name ++ "]\n".toList⟩]) ∧
    Map.find (register_flag L tt default_flag_map (some flag_name) value).2.1
      (L.string_hash (c_string flag_name)) = some existing := by
  have hr : register_flag L tt default_flag_map (some flag_name) value =
      (INVALID_FLAG_ID, default_flag_map,
        [⟨Severity.FATAL, "exp flag [".toList ++ c_string flag_name
          ++ "]is conflict with [".toList ++ existing._flag_name ++ "]\n".toList⟩]) := by
    simp [register_flag, h, Map.subscript_present _ _ _ _ h]
  exact ⟨hr, by rw [hr]; exact h⟩

end exp_flag

/-! ## The loader, line by line -/

namespace exp_flag

theorem raw_to_flag_value_some (L : Lib) (k : FlagValueType) (v : Str) :
    (traits L k).raw_to_flag_value (some v) = some (raw_value L k v) := by
  cases k
  · simp only [raw_value, traits, type_traits_bool]
    split_ifs <;> rfl
  · simp only [raw_value, traits, type_traits_int32_t]
    split_ifs <;> rfl
  · simp only [raw_value, traits, type_traits_uint32_t]
    split_ifs <;> rfl
  · simp only [raw_value, traits, type_traits_float]
    split_ifs <;> rfl

theorem set_exp_flag_value_unregistered (L : Lib) (env : ExpEnvironment)
    (expid flag_name value : Str)
    (h : Map.find env._p_default_flag_map (L.string_hash flag_name) = none) :
    set_exp_flag_value L env expid flag_name value = some (false, env) := by
  simp [set_exp_flag_value, h]

theorem set_exp_flag_value_registered (L : Lib) (env : ExpEnvironment)
    (expid flag_name value : Str) (d : Flag)
    (h : Map.find env._p_default_flag_map (L.string_hash flag_name) = some d) :
    set_exp_flag_value L env expid flag_name value =
      match Map.find env._p_expid_flag_map expid with
      | some (some fm) =>
        some (true, with_flag_map env expid
          (Map.insert fm (L.string_hash flag_name) (override_flag L d value)))
      | _ => none := by
  have hp : (match d._type with
      | FlagValueType.FV_TYPE_BOOL => type_traits_bool.raw_to_flag_value (some value)
      | FlagValueType.FV_TYPE_INT32 => type_traits_int32_t.raw_to_flag_value (some value)
      | FlagValueType.FV_TYPE_UINT32 => type_traits_uint32_t.raw_to_flag_value (some value)
      | FlagValueType.FV_TYPE_FLOAT => (type_traits_float L).raw_to_flag_value (some value))
      = some (raw_value L d._type value) := by
    rw [← raw_to_flag_value_some]
    cases d._type <;> rfl
  unfold set_exp_flag_value
  simp only [h, Map.subscript_present _ _ _ _ h, hp]
  cases hf : Map.find env._p_expid_flag_map expid with
  | none => simp [Map.subscript, hf]
  | some p =>
    cases p with
    | none => simp [Map.subscript, hf]
    | some fm => simp [Map.subscript, hf, override_flag, with_flag_map]

/-- The loop body, by kind of line. -/
theorem load_line_eq (L : Lib) (fp : Str) (st : Str × ExpEnvironment) (l : Str) :
    load_line L fp st l =
      match line_kind l with
      | LineKind.skip => some st
      | LineKind.header id =>
        if Map.find st.2._p_expid_flag_map id = none then some (id, with_section st.2 id)
        else some (id, st.2.LOG Severity.FATAL
          ("exp_id [".toList ++ id ++ "] has been used before\n".toList))
      | LineKind.illegal =>
        some (st.1, st.2.LOG Severity.FATAL
          ("Illegal exp flag line in ".toList ++ fp ++ ":".toList ++ trim l ++ "\n".toList))
      | LineKind.assignment name value =>
        if Map.find st.2._p_expid_flag_map st.1 = none then
          some (st.1, st.2.LOG Severity.FATAL
            ("Don't know this flag[".toList ++ trim l ++ "]belongs to which expid\n".toList))
        else
          match set_exp_flag_value L st.2 st.1 name value with
          | none => none
          | some r =>
            if r.1 = true then some (st.1, r.2)
            else some (st.1, r.2.LOG Severity.FATAL
              ("Set exp flag failed: ".toList ++ trim l ++ "\n".toList)) := by
  unfold load_line line_kind
  simp only
  by_cases h1 : (trim l).length = 0 ∨ (trim l).head? = some '#'
  · simp only [h1, if_true]
  · simp only [h1, if_false]
    by_cases h2 : (trim l).head? = some '[' ∧ (trim l).getLast? = some ']'
    · simp only [h2, and_self, if_true]
      rfl
    · simp only [h2, if_false]
      cases find_char (trim l) '=' <;> rfl

end exp_flag

namespace exp_flag

theorem find_with_section (env : ExpEnvironment) (id e : Str)
    (h : Map.find env._p_expid_flag_map id = none) :
    Map.find (with_section env id)._p_expid_flag_map e =
      if e = id then some (some []) else Map.find env._p_expid_flag_map e := by
  simp only [with_section]
  exact Map.find_insert_new _ _ _ _ h

theorem find_with_flag_map (env : ExpEnvironment) (cur e : Str) (fm : FlagMap) :
    Map.find (with_flag_map env cur fm)._p_expid_flag_map e =
      if e = cur then (Map.find env._p_expid_flag_map cur).map (fun _ => some fm)
      else Map.find env._p_expid_flag_map e := by
  simp only [with_flag_map]
  exact Map.find_assign _ _ _ _

theorem override_entry_with_section (env : ExpEnvironment) (id e : Str) (fid : FlagID)
    (h : Map.find env._p_expid_flag_map id = none) :
    override_entry (with_section env id)._p_expid_flag_map e fid =
      override_entry env._p_expid_flag_map e fid := by
  unfold override_entry
  rw [find_with_section env id e h]
  by_cases he : e = id
  · subst he
    simp [h, Map.find]
  · simp [he]

theorem override_entry_with_flag_map (env : ExpEnvironment) (cur e : Str) (fm0 fm : FlagMap)
    (fid : FlagID) (h : Map.find env._p_expid_flag_map cur = some (some fm0)) :
    override_entry (with_flag_map env cur fm)._p_expid_flag_map e fid =
      if e = cur then Map.find fm fid else override_entry env._p_expid_flag_map e fid := by
  unfold override_entry
  rw [find_with_flag_map env cur e fm]
  by_cases he : e = cur
  · subst he
    simp [h]
  · simp [he]

theorem nonnull_with_section (env : ExpEnvironment) (id : Str)
    (h : Map.find env._p_expid_flag_map id = none) (hnn : nonnull env._p_expid_flag_map) :
    nonnull (with_section env id)._p_expid_flag_map := by
  intro e
  rw [find_with_section env id e h]
  by_cases he : e = id
  · simp [he]
  · simp only [he, if_false]
    exact hnn e

theorem nonnull_with_flag_map (env : ExpEnvironment) (cur : Str) (fm : FlagMap)
    (hnn : nonnull env._p_expid_flag_map) :
    nonnull (with_flag_map env cur fm)._p_expid_flag_map := by
  intro e
  rw [find_with_flag_map env cur e fm]
  by_cases he : e = cur
  · simp only [he, if_true]
    cases Map.find env._p_expid_flag_map cur <;> simp
  · simp only [he, if_false]
    exact hnn e

/-- What one iteration of the loop does to the state, when no stored pointer is NULL:
it only logs, or opens a new empty section, or inserts one flag into the map of the
current section. -/
theorem load_line_cases (L : Lib) (fp : Str) (st : Str × ExpEnvironment) (l : Str)
    (hnn : nonnull st.2._p_expid_flag_map) :
    (line_kind l = LineKind.skip ∧ load_line L fp st l = some st) ∨
    (∃ id, line_kind l = LineKind.header id ∧ Map.find st.2._p_expid_flag_map id = none ∧
      load_line L fp st l = some (id, with_section st.2 id)) ∨
    (∃ id msg, line_kind l = LineKind.header id ∧ Map.find st.2._p_expid_flag_map id ≠ none ∧
      load_line L fp st l = some (id, st.2.LOG Severity.FATAL msg)) ∨
    (∃ msg, line_kind l = LineKind.illegal ∧
      load_line L fp st l = some (st.1, st.2.LOG Severity.FATAL msg)) ∨
    (∃ name value msg, line_kind l = LineKind.assignment name value ∧
      (Map.find st.2._p_expid_flag_map st.1 = none ∨
        Map.find st.2._p_default_flag_map (L.string_hash name) = none) ∧
      load_line L fp st l = some (st.1, st.2.LOG Severity.FATAL msg)) ∨
    (∃ name value d fm, line_kind l = LineKind.assignment name value ∧
      Map.find st.2._p_expid_flag_map st.1 = some (some fm) ∧
      Map.find st.2._p_default_flag_map (L.string_hash name) = some d ∧
      load_line L fp st l = some (st.1, with_flag_map st.2 st.1
        (Map.insert fm (L.string_hash name) (override_flag L d value)))) := by
  rw [load_line_eq]
  cases hk : line_kind l with
  | skip => exact Or.inl ⟨rfl, rfl⟩
  | header id =>
    by_cases hf : Map.find st.2._p_expid_flag_map id = none
    · exact Or.inr (Or.inl ⟨id, rfl, hf, by simp only [hf, if_true]⟩)
    · exact Or.inr (Or.inr (Or.inl ⟨id, _, rfl, hf, by simp only []; rw [if_neg hf]⟩))
  | illegal => exact Or.inr (Or.inr (Or.inr (Or.inl ⟨_, rfl, rfl⟩)))
  | assignment name value =>
    by_cases hf : Map.find st.2._p_expid_flag_map st.1 = none
    · exact Or.inr (Or.inr (Or.inr (Or.inr (Or.inl ⟨name, value, _, rfl, Or.inl hf,
        by simp only []; rw [if_pos hf]⟩))))
    · cases hd : Map.find st.2._p_default_flag_map (L.string_hash name) with
      | none =>
        refine Or.inr (Or.inr (Or.inr (Or.inr (Or.inl ⟨name, value,
          "Set exp flag failed: ".toList ++ trim l ++ "\n".toList, rfl, Or.inr hd, ?_⟩))))
        simp only [hf, if_false, set_exp_flag_value_unregistered L st.2 st.1 name value hd]
        rfl
      | some d =>
        cases hp : Map.find st.2._p_expid_flag_map st.1 with
        | none => exact absurd hp hf
        | some p =>
          cases p with
          | none => exact absurd hp (hnn st.1)
          | some fm =>
            refine Or.inr (Or.inr (Or.inr (Or.inr (Or.inr ⟨name, value, d, fm, rfl, rfl, hd, ?_⟩))))
            simp only [set_exp_flag_value_registered L st.2 st.1 name value d hd, hp]
            simp

end exp_flag

namespace exp_flag

/-- The effect of one line on the tables, when no stored pointer is NULL: the loop
body returns; the Default Flag Map is untouched; keys and entries are only added, keys
only by a header line, entries only by an assignment in the current section. -/
theorem load_line_effect (L : Lib) (fp : Str) (st : Str × ExpEnvironment) (l : Str)
    (hnn : nonnull st.2._p_expid_flag_map) :
    ∃ st1, load_line L fp st l = some st1 ∧
      nonnull st1.2._p_expid_flag_map ∧
      st1.2._p_default_flag_map = st.2._p_default_flag_map ∧
      (∀ e, Map.find st.2._p_expid_flag_map e ≠ none →
        Map.find st1.2._p_expid_flag_map e ≠ none) ∧
      (∀ e fid f, override_entry st.2._p_expid_flag_map e fid = some f →
        override_entry st1.2._p_expid_flag_map e fid = some f) ∧
      (∀ e, line_kind l ≠ LineKind.header e → Map.find st.2._p_expid_flag_map e = none →
        Map.find st1.2._p_expid_flag_map e = none) ∧
      (∀ id, line_kind l = LineKind.header id →
        st1.1 = id ∧ Map.find st1.2._p_expid_flag_map id ≠ none) ∧
      ((∀ id, line_kind l ≠ LineKind.header id) → st1.1 = st.1) ∧
      (∀ e fid, (∀ n v, line_kind l = LineKind.assignment n v → L.string_hash n = fid →
          st.1 ≠ e) →
        override_entry st.2._p_expid_flag_map e fid = none →
        override_entry st1.2._p_expid_flag_map e fid = none) ∧
      (∀ n v d, line_kind l = LineKind.assignment n v →
        Map.find st.2._p_expid_flag_map st.1 ≠ none →
        Map.find st.2._p_default_flag_map (L.string_hash n) = some d →
        override_entry st.2._p_expid_flag_map st.1 (L.string_hash n) = none →
        override_entry st1.2._p_expid_flag_map st.1 (L.string_hash n)
          = some (override_flag L d v)) := by
  rcases load_line_cases L fp st l hnn with
    ⟨hk, h⟩ | ⟨id, hk, hf, h⟩ | ⟨id, msg, hk, hf, h⟩ | ⟨msg, hk, h⟩ |
    ⟨n, v, msg, hk, hor, h⟩ | ⟨n, v, d, fm, hk, hfm, hd, h⟩
  · refine ⟨st, h, hnn, rfl, fun _ he => he, fun _ _ _ he => he, fun _ _ he => he, ?_,
      fun _ => rfl, fun _ _ _ he => he, ?_⟩
    · intro id hid
      rw [hk] at hid
      exact absurd hid (by simp)
    · intro n v d hn
      rw [hk] at hn
      exact absurd hn (by simp)
  · refine ⟨_, h, nonnull_with_section st.2 id hf hnn, rfl, ?_, ?_, ?_, ?_, ?_, ?_, ?_⟩
    · intro e he
      rw [find_with_section st.2 id e hf]
      by_cases hei : e = id
      · simp [hei]
      · simpa [hei] using he
    · intro e fid f he
      rw [override_entry_with_section st.2 id e fid hf]
      exact he
    · intro e hne he
      rw [find_with_section st.2 id e hf]
      have hei : e ≠ id := by
        intro hei
        rw [hk, hei] at hne
        exact hne rfl
      simpa [hei] using he
    · intro id1 hid
      rw [hk] at hid
      simp only [LineKind.header.injEq] at hid
      subst hid
      refine ⟨rfl, ?_⟩
      rw [find_with_section st.2 id id hf]
      simp
    · intro hno
      exact absurd hk (hno id)
    · intro e fid _ he
      rw [override_entry_with_section st.2 id e fid hf]
      exact he
    · intro n v d hn
      rw [hk] at hn
      exact absurd hn (by simp)
  · refine ⟨_, h, hnn, rfl, fun _ he => he, fun _ _ _ he => he, fun _ _ he => he, ?_, ?_,
      fun _ _ _ he => he, ?_⟩
    · intro id1 hid
      rw [hk] at hid
      simp only [LineKind.header.injEq] at hid
      subst hid
      exact ⟨rfl, hf⟩
    · intro hno
      exact absurd hk (hno id)
    · intro n v d hn
      rw [hk] at hn
      exact absurd hn (by simp)
  · refine ⟨_, h, hnn, rfl, fun _ he => he, fun _ _ _ he => he, fun _ _ he => he, ?_,
      fun _ => rfl, fun _ _ _ he => he, ?_⟩
    · intro id hid
      rw [hk] at hid
      exact absurd hid (by simp)
    · intro n v d hn
      rw [hk] at hn
      exact absurd hn (by simp)
  · refine ⟨_, h, hnn, rfl, fun _ he => he, fun _ _ _ he => he, fun _ _ he => he, ?_,
      fun _ => rfl, fun _ _ _ he => he, ?_⟩
    · intro id hid
      rw [hk] at hid
      exact absurd hid (by simp)
    · intro n1 v1 d1 hn hcur hd1 _
      rw [hk] at hn
      simp only [LineKind.assignment.injEq] at hn
      obtain ⟨hn1, _⟩ := hn
      subst hn1
      rcases hor with hor | hor
      · exact absurd hor hcur
      · rw [hor] at hd1
        exact absurd hd1 (by simp)
  · refine ⟨_, h, nonnull_with_flag_map st.2 st.1 _ hnn, rfl, ?_, ?_, ?_, ?_, fun _ => rfl,
      ?_, ?_⟩
    · intro e he
      rw [find_with_flag_map]
      by_cases hec : e = st.1
      · simp [hec, hfm]
      · simpa [hec] using he
    · intro e fid f he
      rw [override_entry_with_flag_map st.2 st.1 e fm _ fid hfm]
      by_cases hec : e = st.1
      · subst hec
        simp only [if_true]
        have hfid : Map.find fm fid = some f := by
          simpa [override_entry, hfm] using he
        cases hexist : Map.find fm (L.string_hash n) with
        | some w => rw [Map.insert_present fm _ _ w hexist]; exact hfid
        | none =>
          rw [Map.find_insert_new fm _ _ fid hexist]
          have hne : fid ≠ L.string_hash n := by
            intro hc
            rw [hc, hexist] at hfid
            exact absurd hfid (by simp)
          simp [hne, hfid]
      · simpa [hec] using he
    · intro e _ he
      rw [find_with_flag_map]
      have hec : e ≠ st.1 := by
        intro hc
        rw [hc, hfm] at he
        exact absurd he (by simp)
      simpa [hec] using he
    · intro id hid
      rw [hk] at hid
      exact absurd hid (by simp)
    · intro e fid hno he
      rw [override_entry_with_flag_map st.2 st.1 e fm _ fid hfm]
      by_cases hec : e = st.1
      · subst hec
        simp only [if_true]
        have hfid : Map.find fm fid = none := by
          simpa [override_entry, hfm] using he
        have hne : L.string_hash n ≠ fid := fun hc => hno n v hk hc rfl
        cases hexist : Map.find fm (L.string_hash n) with
        | some w => rw [Map.insert_present fm _ _ w hexist]; exact hfid
        | none =>
          rw [Map.find_insert_new fm _ _ fid hexist]
          simp [Ne.symm hne, hfid]
      · simpa [hec] using he
    · intro n1 v1 d1 hn _ hd1 hnone
      rw [hk] at hn
      simp only [LineKind.assignment.injEq] at hn
      obtain ⟨hn1, hv1⟩ := hn
      subst hn1
      subst hv1
      rw [hd] at hd1
      simp only [Option.some.injEq] at hd1
      subst hd1
      have hfid : Map.find fm (L.string_hash n) = none := by
        simpa [override_entry, hfm] using hnone
      rw [override_entry_with_flag_map st.2 st.1 st.1 fm _ _ hfm]
      simp only [if_true]
      rw [Map.find_insert_new fm _ _ _ hfid]
      simp

end exp_flag

/-! ## The loader, over the whole file -/

namespace exp_flag

theorem load_lines_append (L : Lib) (fp : Str) (st : Str × ExpEnvironment) (a b : List Str) :
    load_lines L fp st (a ++ b) =
      match load_lines L fp st a with
      | none => none
      | some st1 => load_lines L fp st1 b := by
  induction a generalizing st with
  | nil => rfl
  | cons l a ih =>
    simp only [List.cons_append, load_lines]
    cases load_line L fp st l with
    | none => rfl
    | some st1 => exact ih st1

/-- The loop over any lines returns, leaves the Default Flag Map untouched, and only
adds keys and entries to the override table. -/
theorem load_lines_effect (L : Lib) (fp : Str) (st : Str × ExpEnvironment) (ls : List Str)
    (hnn : nonnull st.2._p_expid_flag_map) :
    ∃ st1, load_lines L fp st ls = some st1 ∧
      nonnull st1.2._p_expid_flag_map ∧
      st1.2._p_default_flag_map = st.2._p_default_flag_map ∧
      (∀ e, Map.find st.2._p_expid_flag_map e ≠ none →
        Map.find st1.2._p_expid_flag_map e ≠ none) ∧
      (∀ e fid f, override_entry st.2._p_expid_flag_map e fid = some f →
        override_entry st1.2._p_expid_flag_map e fid = some f) := by
  induction ls generalizing st with
  | nil => exact ⟨st, rfl, hnn, rfl, fun _ h => h, fun _ _ _ h => h⟩
  | cons l ls ih =>
    obtain ⟨s1, h1, hn1, hd1, hk1, he1, _⟩ := load_line_effect L fp st l hnn
    obtain ⟨s2, h2, hn2, hd2, hk2, he2⟩ := ih s1 hn1
    refine ⟨s2, ?_, hn2, hd2.trans hd1, fun e h => hk2 e (hk1 e h),
      fun e fid f h => he2 e fid f (he1 e fid f h)⟩
    simp only [load_lines, h1]
    exact h2

/-- Lines none of which is a header for `E` do not make `E` a key. -/
theorem load_lines_no_header (L : Lib) (fp : Str) (st st1 : Str × ExpEnvironment)
    (ls : List Str) (E : Str) (hnn : nonnull st.2._p_expid_flag_map)
    (hls : ∀ l ∈ ls, line_kind l ≠ LineKind.header E)
    (hE : Map.find st.2._p_expid_flag_map E = none)
    (hrun : load_lines L fp st ls = some st1) :
    Map.find st1.2._p_expid_flag_map E = none := by
  induction ls generalizing st with
  | nil =>
    simp only [load_lines, Option.some.injEq] at hrun
    subst hrun
    exact hE
  | cons l ls ih =>
    obtain ⟨s1, h1, hn1, _, _, _, hh1, _⟩ := load_line_effect L fp st l hnn
    simp only [load_lines, h1] at hrun
    exact ih s1 hn1 (fun x hx => hls x (List.mem_cons_of_mem l hx))
      (hh1 E (hls l (List.mem_cons_self l ls)) hE) hrun

/-- Lines that are no headers and do not assign a name hashing to `fid` keep the
current section and leave its entry for `fid` absent. -/
theorem load_lines_in_section (L : Lib) (fp : Str) (st st1 : Str × ExpEnvironment)
    (ls : List Str) (fid : FlagID) (hnn : nonnull st.2._p_expid_flag_map)
    (hls : ∀ l ∈ ls, (∀ id, line_kind l ≠ LineKind.header id) ∧
      (∀ n v, line_kind l = LineKind.assignment n v → L.string_hash n ≠ fid))
    (hE : override_entry st.2._p_expid_flag_map st.1 fid = none)
    (hrun : load_lines L fp st ls = some st1) :
    st1.1 = st.1 ∧ override_entry st1.2._p_expid_flag_map st.1 fid = none := by
  induction ls generalizing st with
  | nil =>
    simp only [load_lines, Option.some.injEq] at hrun
    subst hrun
    exact ⟨rfl, hE⟩
  | cons l ls ih =>
    obtain ⟨s1, h1, hn1, _, _, _, _, _, hc1, hno1, _⟩ := load_line_effect L fp st l hnn
    simp only [load_lines, h1] at hrun
    obtain ⟨hl1, hl2⟩ := hls l (List.mem_cons_self l ls)
    have hcur : s1.1 = st.1 := hc1 hl1
    have hent : override_entry s1.2._p_expid_flag_map s1.1 fid = none := by
      rw [hcur]
      exact hno1 st.1 fid (fun n v hn hh => absurd hh (hl2 n v hn)) hE
    obtain ⟨r1, r2⟩ := ih s1 hn1 (fun x hx => hls x (List.mem_cons_of_mem l hx)) hent hrun
    rw [hcur] at r1 r2
    exact ⟨r1, r2⟩

/-- The first assignment wins: when section `E` is opened for the first time by `hdr`,
and `asg` is the first line of the section that assigns the registered flag `name`,
then whatever follows, the override entry of `E` for the flag is the one built from
the value of `asg`. -/
theorem first_assignment_wins (L : Lib) (fp : Str) (env : ExpEnvironment)
    (pre body post : List Str) (hdr asg E name value : Str) (d : Flag)
    (hempty : env._p_expid_flag_map = [])
    (hpre : ∀ l ∈ pre, line_kind l ≠ LineKind.header E)
    (hhdr : line_kind hdr = LineKind.header E)
    (hbody : ∀ l ∈ body, (∀ id, line_kind l ≠ LineKind.header id) ∧
      (∀ n v, line_kind l = LineKind.assignment n v →
        L.string_hash n ≠ L.string_hash name))
    (hasg : line_kind asg = LineKind.assignment name value)
    (hreg : Map.find env._p_default_flag_map (L.string_hash name) = some d) :
    ∃ st1, load_lines L fp ([], env) (pre ++ hdr :: (body ++ asg :: post)) = some st1 ∧
      st1.2._p_default_flag_map = env._p_default_flag_map ∧
      override_entry st1.2._p_expid_flag_map E (L.string_hash name)
        = some (override_flag L d value) := by
  have hnn0 : nonnull env._p_expid_flag_map := by
    intro e
    rw [hempty]
    simp [Map.find]
  -- the lines before the header
  obtain ⟨s1, r1, n1, d1, _, _⟩ := load_lines_effect L fp ([], env) pre hnn0
  have hE1 : Map.find s1.2._p_expid_flag_map E = none :=
    load_lines_no_header L fp ([], env) s1 pre E hnn0 hpre (by rw [hempty]; rfl) r1
  -- the header
  obtain ⟨s2, r2, n2, d2, _, _, _, hh2, _, hno2, _⟩ := load_line_effect L fp s1 hdr n1
  obtain ⟨hcur2, hkey2⟩ := hh2 E hhdr
  have hent2 : override_entry s2.2._p_expid_flag_map s2.1 (L.string_hash name) = none := by
    rw [hcur2]
    refine hno2 E _ ?_ ?_
    · intro n v hn
      rw [hhdr] at hn
      exact absurd hn (by simp)
    · simp [override_entry, hE1]
  -- the lines of the section before the assignment
  obtain ⟨s3, r3, n3, d3, hk3, _⟩ := load_lines_effect L fp s2 body n2
  obtain ⟨hcur3, hent3⟩ := load_lines_in_section L fp s2 s3 body _ n2 hbody hent2 r3
  -- the assignment
  obtain ⟨s4, r4, n4, d4, _, _, _, _, _, _, hset4⟩ := load_line_effect L fp s3 asg n3
  have hreg3 : Map.find s3.2._p_default_flag_map (L.string_hash name) = some d := by
    rw [d3, d2, d1]
    exact hreg
  have hent4 : override_entry s4.2._p_expid_flag_map E (L.string_hash name)
      = some (override_flag L d value) := by
    have h := hset4 name value d hasg
      (by rw [hcur3, hcur2]; exact hk3 E (by rw [← hcur2]; rw [hcur2]; exact hkey2))
      hreg3 (by rw [hcur3]; exact hent3)
    rw [hcur3, hcur2] at h
    exact h
  -- the rest of the file
  obtain ⟨s5, r5, _, d5, _, he5⟩ := load_lines_effect L fp s4 post n4
  refine ⟨s5, ?_, ?_, he5 E _ _ hent4⟩
  · rw [load_lines_append, r1]
    simp only [load_lines, r2]
    rw [load_lines_append, r3]
    simp only [load_lines, r4]
    exact r5
  · rw [d5, d4, d3, d2, d1]

end exp_flag

/-! ## The getters -/

namespace exp_flag

theorem get_default_value_registered {T : Type} (tt : type_traits T) (env : ExpEnvironment)
    (fid : FlagID) (f : Flag) (h : Map.find env._p_default_flag_map fid = some f) :
    get_default_value tt env fid = (tt.flag_value_to_value f._flag_value, env) := by
  simp [get_default_value, h, Map.subscript_present _ _ _ _ h]

/-- The value `get_default_value` returns depends on the Default Flag Map only. -/
theorem get_default_value_value {T : Type} (tt : type_traits T) (env env1 : ExpEnvironment)
    (fid : FlagID) (h : env1._p_default_flag_map = env._p_default_flag_map) :
    (get_default_value tt env1 fid).1 = (get_default_value tt env fid).1 := by
  unfold get_default_value
  rw [h]
  split_ifs <;> rfl

/-- With a NULL experiment id or the sentinel flag id, `get_exp_value` returns what
`get_default_value` returns. -/
theorem get_exp_value_null_or_sentinel {T : Type} (tt : type_traits T) (env : ExpEnvironment)
    (exp_id : Option Str) (fid : FlagID) (h : exp_id = none ∨ fid = INVALID_FLAG_ID) :
    (get_exp_value tt env exp_id fid).1 = (get_default_value tt env fid).1 := by
  cases exp_id with
  | none => exact get_default_value_value tt env _ fid rfl
  | some p =>
    have hf : fid = INVALID_FLAG_ID := by
      rcases h with h | h
      · exact absurd h (by simp)
      · exact h
    simp only [get_exp_value, hf, if_true]
    exact get_default_value_value tt env _ _ rfl

/-- Without an override entry for the pair, `get_exp_value` returns what
`get_default_value` returns. -/
theorem get_exp_value_no_entry {T : Type} (tt : type_traits T) (env : ExpEnvironment)
    (e : Str) (fid : FlagID)
    (h : override_entry env._p_expid_flag_map (c_string e) fid = none) :
    (get_exp_value tt env (some e) fid).1 = (get_default_value tt env fid).1 := by
  by_cases hf : INVALID_FLAG_ID = fid
  · exact get_exp_value_null_or_sentinel tt env (some e) fid (Or.inr hf.symm)
  · simp only [get_exp_value, hf, if_false]
    cases hk : Map.find env._p_expid_flag_map (c_string e) with
    | none =>
      simp only [ne_eq, not_true_eq_false, if_false]
      exact get_default_value_value tt env _ _ rfl
    | some p =>
      simp only [ne_eq, reduceCtorEq, not_false_eq_true, if_true,
        Map.subscript_present _ _ _ _ hk]
      cases p with
      | none => exact get_default_value_value tt env _ _ rfl
      | some fm =>
        have hfm : Map.find fm fid = none := by
          simpa [override_entry, hk] using h
        simp only [hfm, if_true]

/-- With an override entry for the pair and a flag id that is not the sentinel,
`get_exp_value` returns the value of the entry. -/
theorem get_exp_value_entry {T : Type} (tt : type_traits T) (env : ExpEnvironment)
    (e : Str) (fid : FlagID) (f : Flag) (hf : fid ≠ INVALID_FLAG_ID)
    (h : override_entry env._p_expid_flag_map (c_string e) fid = some f) :
    (get_exp_value tt env (some e) fid).1 = tt.flag_value_to_value f._flag_value := by
  have hf1 : ¬ INVALID_FLAG_ID = fid := fun hc => hf hc.symm
  simp only [get_exp_value, hf1, if_false]
  cases hk : Map.find env._p_expid_flag_map (c_string e) with
  | none => simp [override_entry, hk] at h
  | some p =>
    cases p with
    | none => simp [override_entry, hk] at h
    | some fm =>
      have hfm : Map.find fm fid = some f := by
        simpa [override_entry, hk] using h
      simp [Map.subscript_present _ _ _ _ hk, hfm, Map.subscript_present _ _ _ _ hfm]

end exp_flag

/-! ## Decimal text -/

namespace exp_flag

theorem digit_char_toNat (d : Nat) (h : d < 10) : (Char.ofNat (48 + d)).toNat = 48 + d := by
  interval_cases d <;> rfl

theorem digit_char_isdigit (d : Nat) (h : d < 10) : isdigit (Char.ofNat (48 + d)) = true := by
  simp only [isdigit, digit_char_toNat d h, Bool.and_eq_true, decide_eq_true_eq]
  omega

theorem digits_value_snoc (xs : Str) (c : Char) :
    digits_value (xs ++ [c]) = 10 * digits_value xs + (c.toNat - 48) := by
  simp [digits_value, List.foldl_append]

theorem decimal_isdigit (fuel n : Nat) : ∀ c ∈ decimal fuel n, isdigit c = true := by
  induction fuel generalizing n with
  | zero => simp [decimal]
  | succ fuel ih =>
    intro c hc
    unfold decimal at hc
    split_ifs at hc with h
    · simp only [List.mem_singleton] at hc
      subst hc
      exact digit_char_isdigit n h
    · simp only [List.mem_append, List.mem_singleton] at hc
      rcases hc with hc | hc
      · exact ih (n / 10) c hc
      · subst hc
        exact digit_char_isdigit (n % 10) (Nat.mod_lt n (by decide))

theorem decimal_ne_nil (fuel n : Nat) : decimal (fuel + 1) n ≠ [] := by
  unfold decimal
  split_ifs <;> simp

theorem digits_value_decimal (fuel n : Nat) (h : n < fuel) :
    digits_value (decimal fuel n) = n := by
  induction fuel generalizing n with
  | zero => omega
  | succ fuel ih =>
    unfold decimal
    split_ifs with h10
    · simp [digits_value, digit_char_toNat n h10]
    · have hlt : n / 10 < fuel := by omega
      rw [digits_value_snoc, ih (n / 10) hlt, digit_char_toNat (n % 10) (Nat.mod_lt n (by decide))]
      omega

theorem nat_text_isdigit (n : Nat) : ∀ c ∈ nat_text n, isdigit c = true :=
  decimal_isdigit (n + 1) n

theorem nat_text_ne_nil (n : Nat) : nat_text n ≠ [] := decimal_ne_nil n n

theorem digits_value_nat_text (n : Nat) : digits_value (nat_text n) = n :=
  digits_value_decimal (n + 1) n (Nat.lt_succ_self n)

theorem int_text_eq (n : Int) :
    int_text n = (if n < 0 then ['-'] else []) ++ (nat_text n.natAbs ++ []) := by
  unfold int_text
  split_ifs <;> simp

theorem int_text_no_nul (n : Int) : ∀ c ∈ int_text n, c.toNat ≠ 0 := by
  intro c hc
  have hd : ∀ x ∈ nat_text n.natAbs, x.toNat ≠ 0 := by
    intro x hx
    simpa using isdigit_not_nul x (nat_text_isdigit _ x hx)
  unfold int_text at hc
  split_ifs at hc
  · simp only [List.mem_cons] at hc
    rcases hc with hc | hc
    · subst hc
      decide
    · exact hd c hc
  · exact hd c hc

theorem scan_subject_int_text (n : Int) :
    scan_subject (int_text n) =
      ⟨0, decide (n < 0), if n < 0 then 1 else 0, nat_text n.natAbs⟩ := by
  have h := scan_subject_stops [] (if n < 0 then ['-'] else []) (nat_text n.natAbs) []
    (by simp) (by unfold is_sign; split_ifs <;> simp) (nat_text_ne_nil _)
    (nat_text_isdigit _) rfl
  rw [int_text_eq]
  simp only [List.nil_append] at h
  rw [h]
  split_ifs with hn <;> simp [hn]

/-- The int32 parser reads the base-10 text of an integer of the int32 range back as
that integer. -/
theorem int32_parse_int_text (n : Int) (hlo : -(2 ^ 31) ≤ n) (hhi : n < 2 ^ 31) :
    type_traits_int32_t.raw_to_flag_value (some (int_text n))
      = some (FlagValue._int32_value n) := by
  have hc : c_string (int_text n) = int_text n := c_string_of_no_nul _ (int_text_no_nul n)
  have hs := scan_subject_int_text n
  have hlen : (int_text n).length = (if n < 0 then 1 else 0) + (nat_text n.natAbs).length := by
    unfold int_text
    split_ifs
    · simp only [List.length_cons]
      omega
    · simp
  have hx : (if decide (n < 0) = true then -((n.natAbs : Nat) : Int) else ((n.natAbs : Nat) : Int))
      = n := by
    split_ifs with h
    · simp only [decide_eq_true_eq] at h
      omega
    · simp only [decide_eq_true_eq] at h
      omega
  have hcast : to_int32 n = n := by
    unfold to_int32
    omega
  simp only [type_traits_int32_t, hc]
  have hst : strtoll (int_text n) = ⟨n, (int_text n).length, false⟩ := by
    unfold strtoll
    simp only [hs, nat_text_ne_nil, if_false, digits_value_nat_text, hx, hlen]
    have h1 : ¬ LLONG_MAX < n := by
      unfold LLONG_MAX
      omega
    have h2 : ¬ n < LLONG_MIN := by
      unfold LLONG_MIN
      omega
    simp [h1, h2]
  rw [hst]
  simp [hcast]

end exp_flag

/-! ## Independence of the diagnostics -/

namespace exp_flag

theorem nonnull_nil : nonnull ([] : ExpidFlagMap) := by
  intro e
  simp [Map.find]

/-- `load_exp_config` returns for every input, and the Default Flag Map of the result
is the one it was given. -/
theorem load_exp_config_effect (L : Lib) (fs : Str → Option Str) (env : ExpEnvironment)
    (file_path : Option Str) :
    ∃ env1, load_exp_config L fs env file_path = some env1 ∧
      env1._p_default_flag_map = env._p_default_flag_map := by
  unfold load_exp_config
  cases file_path with
  | none => exact ⟨_, rfl, rfl⟩
  | some p =>
    simp only
    cases fs (c_string p) with
    | none => exact ⟨_, rfl, rfl⟩
    | some contents =>
      obtain ⟨st1, h1, _, hd, _⟩ := load_lines_effect L (c_string p)
        ([], { env with _p_expid_flag_map := [] }) (getlines contents) nonnull_nil
      exact ⟨st1.2, by simp [h1], hd⟩

/-- On a file that can be opened, `load_exp_config` is the loop over its lines. -/
theorem load_exp_config_lines (L : Lib) (fs : Str → Option Str) (env : ExpEnvironment)
    (path text : Str) (hopen : fs (c_string path) = some text) :
    load_exp_config L fs env (some path) =
      (load_lines L (c_string path) ([], { env with _p_expid_flag_map := [] })
        (getlines text)).map (fun st => st.2) := by
  simp [load_exp_config, hopen]

/-- The tables after a line depend on the tables before it only. -/
theorem load_line_tables (L : Lib) (fp fp1 : Str) (a b : Str × ExpEnvironment) (l : Str)
    (h : tables a = tables b) :
    (load_line L fp a l).map tables = (load_line L fp1 b l).map tables := by
  obtain ⟨c, em, dm, g⟩ := a
  obtain ⟨c1, em1, dm1, g1⟩ := b
  simp only [tables, Prod.mk.injEq] at h
  obtain ⟨rfl, rfl, rfl⟩ := h
  rw [load_line_eq, load_line_eq]
  cases line_kind l with
  | skip => rfl
  | header id =>
    simp only
    split_ifs <;> rfl
  | illegal => rfl
  | assignment name value =>
    simp only
    by_cases hc : Map.find em c = none
    · simp only [hc, if_true]
      rfl
    · simp only [hc, if_false]
      cases hd : Map.find dm (L.string_hash name) with
      | none =>
        rw [set_exp_flag_value_unregistered L _ c name value hd,
          set_exp_flag_value_unregistered L _ c name value hd]
        rfl
      | some d =>
        rw [set_exp_flag_value_registered L _ c name value d hd,
          set_exp_flag_value_registered L _ c name value d hd]
        simp only
        cases Map.find em c with
        | none => rfl
        | some p =>
          cases p with
          | none => rfl
          | some fm => rfl

theorem load_lines_tables (L : Lib) (fp fp1 : Str) (a b : Str × ExpEnvironment) (ls : List Str)
    (h : tables a = tables b) :
    (load_lines L fp a ls).map tables = (load_lines L fp1 b ls).map tables := by
  induction ls generalizing a b with
  | nil => simp [load_lines, h]
  | cons l ls ih =>
    have h1 := load_line_tables L fp fp1 a b l h
    simp only [load_lines]
    cases ha : load_line L fp a l with
    | none =>
      rw [ha] at h1
      cases hb : load_line L fp1 b l with
      | none => rfl
      | some y => rw [hb] at h1; simp at h1
    | some x =>
      rw [ha] at h1
      cases hb : load_line L fp1 b l with
      | none => rw [hb] at h1; simp at h1
      | some y =>
        rw [hb] at h1
        simp only [Option.map_some', Option.some.injEq] at h1
        exact ih x y h1

/-- A line that is passed over leaves the tables as they are. -/
theorem load_line_passed_over (L : Lib) (fp : Str) (st : Str × ExpEnvironment) (l : Str)
    (h : passed_over L st.2._p_default_flag_map l) :
    ∃ st1, load_line L fp st l = some st1 ∧ tables st1 = tables st := by
  rw [load_line_eq]
  rcases h with h | h | ⟨name, value, h, hd⟩
  · rw [h]
    exact ⟨st, rfl, rfl⟩
  · rw [h]
    exact ⟨_, rfl, rfl⟩
  · rw [h]
    simp only
    by_cases hc : Map.find st.2._p_expid_flag_map st.1 = none
    · rw [if_pos hc]
      exact ⟨_, rfl, rfl⟩
    · rw [if_neg hc, set_exp_flag_value_unregistered L st.2 st.1 name value hd]
      exact ⟨_, rfl, rfl⟩

/-- The value a getter returns depends on the two tables only. -/
theorem get_exp_value_tables {T : Type} (tt : type_traits T) (env env1 : ExpEnvironment)
    (exp_id : Option Str) (fid : FlagID)
    (hem : env1._p_expid_flag_map = env._p_expid_flag_map)
    (hdm : env1._p_default_flag_map = env._p_default_flag_map) :
    (get_exp_value tt env1 exp_id fid).1 = (get_exp_value tt env exp_id fid).1 := by
  have hdef := get_default_value_value tt env env1 fid hdm
  cases exp_id with
  | none =>
    rw [get_exp_value_null_or_sentinel tt env1 none fid (Or.inl rfl),
      get_exp_value_null_or_sentinel tt env none fid (Or.inl rfl), hdef]
  | some e =>
    by_cases hf : fid = INVALID_FLAG_ID
    · rw [get_exp_value_null_or_sentinel tt env1 (some e) fid (Or.inr hf),
        get_exp_value_null_or_sentinel tt env (some e) fid (Or.inr hf), hdef]
    · cases ho : override_entry env._p_expid_flag_map (c_string e) fid with
      | none =>
        rw [get_exp_value_no_entry tt env1 e fid (by rw [hem]; exact ho),
          get_exp_value_no_entry tt env e fid ho, hdef]
      | some f =>
        rw [get_exp_value_entry tt env1 e fid f hf (by rw [hem]; exact ho),
          get_exp_value_entry tt env e fid f hf ho]

end exp_flag

/-! ## Claims on loading and resolution -/

namespace exp_flag

/-- C1: in a configuration where section `E` is opened for the first time by `hdr`,
and `asg` is the first line of that section assigning the flag `f` (no header and no
other assignment to it stands between), with `f` registered as INT32 under an id that
is not the sentinel and the value being the base-10 text of an integer `n` of the int32
range, `load_exp_config` returns and afterwards `get_int32(E, id(f))` returns `n`. -/
theorem override_hit (L : Lib) (fs : Str → Option Str) (env : ExpEnvironment)
    (path text : Str) (pre body post : List Str) (hdr asg E f : Str) (n d0 : Int)
    (hopen : fs (c_string path) = some text)
    (hlines : getlines text = pre ++ hdr :: (body ++ asg :: post))
    (hpre : ∀ l ∈ pre, line_kind l ≠ LineKind.header E)
    (hhdr : line_kind hdr = LineKind.header E)
    (hbody : ∀ l ∈ body, (∀ id, line_kind l ≠ LineKind.header id) ∧
      (∀ name v, line_kind l = LineKind.assignment name v →
        L.string_hash name ≠ L.string_hash f))
    (hasg : line_kind asg = LineKind.assignment f (int_text n))
    (hreg : registered L FlagValueType.FV_TYPE_INT32 env._p_default_flag_map f d0)
    (hid : L.string_hash f ≠ INVALID_FLAG_ID)
    (hE : ∀ c ∈ E, c.toNat ≠ 0)
    (hlo : -(2 ^ 31) ≤ n) (hhi : n < 2 ^ 31) :
    ∃ env1, load_exp_config L fs env (some path) = some env1 ∧
      (get_int32 env1 (some E) (L.string_hash f)).1 = some n := by
  obtain ⟨st1, hrun, _, hent⟩ := first_assignment_wins L (c_string path)
    { env with _p_expid_flag_map := [] } pre body post hdr asg E f (int_text n) _
    rfl hpre hhdr hbody hasg hreg
  refine ⟨st1.2, ?_, ?_⟩
  · rw [load_exp_config_lines L fs env path text hopen, hlines, hrun]
    rfl
  · have hcE : c_string E = E := c_string_of_no_nul E hE
    unfold get_int32
    rw [get_exp_value_entry type_traits_int32_t st1.2 E _ _ hid (by rw [hcE]; exact hent)]
    have hraw := raw_to_flag_value_some L FlagValueType.FV_TYPE_INT32 (int_text n)
    have hparse := int32_parse_int_text n hlo hhi
    have hv : raw_value L FlagValueType.FV_TYPE_INT32 (int_text n) = FlagValue._int32_value n := by
      have h2 : (traits L FlagValueType.FV_TYPE_INT32).raw_to_flag_value (some (int_text n))
          = some (FlagValue._int32_value n) := hparse
      rw [hraw] at h2
      exact Option.some.inj h2
    have hty : type_traits_int32_t.to_type = FlagValueType.FV_TYPE_INT32 := rfl
    simp only [override_flag, traits, hty, hv]
    rfl

end exp_flag

namespace exp_flag

/-- In the file below, section E is opened once and `f = 42` is its first assignment
to f; `get_int32` then returns 42. -/
theorem override_hit_witness :
    ∃ env1, load_exp_config test_lib
        (test_fs "# demo\n[D]\nf = 1\n[ E ]\n\nb = true\nf = 42\nf = 43\n") test_env
        (some "exp.conf".toList) = some env1 ∧
      (get_int32 env1 (some "E".toList) (test_lib.string_hash "f".toList)).1 = some 42 :=
  override_hit test_lib (test_fs "# demo\n[D]\nf = 1\n[ E ]\n\nb = true\nf = 42\nf = 43\n")
    test_env "exp.conf".toList "# demo\n[D]\nf = 1\n[ E ]\n\nb = true\nf = 42\nf = 43\n".toList
    ["# demo".toList, "[D]".toList, "f = 1".toList] ["".toList, "b = true".toList]
    ["f = 43".toList] "[ E ]".toList "f = 42".toList "E".toList "f".toList 42 7
    (by decide) (by decide) (by decide) (by decide)
    (by
      intro l hl
      simp only [List.mem_cons, List.mem_singleton, List.not_mem_nil, or_false] at hl
      rcases hl with rfl | rfl
      · have hk : line_kind "".toList = LineKind.skip := by decide
        rw [hk]
        exact ⟨fun id h => (by cases h), fun name v h => (by cases h)⟩
      · have hk : line_kind "b = true".toList = LineKind.assignment "b".toList "true".toList := by
          decide
        rw [hk]
        refine ⟨fun id h => (by cases h), fun name v h => ?_⟩
        simp only [LineKind.assignment.injEq] at h
        rw [← h.1]
        decide)
    (by decide) (by decide) (by decide) (by decide) (by decide) (by decide)

/-- C2: for a flag of any kind registered with default `d`, and an experiment id under
which the override table has no entry for the flag (the id is no key, or its map lacks
the flag), the typed getter returns `d`. -/
theorem no_override_fallback (L : Lib) (k : FlagValueType) (env : ExpEnvironment)
    (e name : Str) (d : k.value_type)
    (hreg : registered L k env._p_default_flag_map name d)
    (hno : ∀ fm, Map.find env._p_expid_flag_map (c_string e) = some (some fm) →
      Map.find fm (L.string_hash name) = none) :
    (get_exp_value (traits L k) env (some e) (L.string_hash name)).1 = some d := by
  have hent : override_entry env._p_expid_flag_map (c_string e) (L.string_hash name) = none := by
    unfold override_entry
    cases hk : Map.find env._p_expid_flag_map (c_string e) with
    | none => rfl
    | some p =>
      cases p with
      | none => rfl
      | some fm => exact hno fm hk
  rw [get_exp_value_no_entry (traits L k) env e _ hent,
    get_default_value_registered (traits L k) env _ _ hreg]
  exact traits_roundtrip L k d

/-- The uint32 flag u of the test registry has default 5; under the unknown id X, and
under the section E that does not assign it, `get_uint32` returns 5. -/
theorem no_override_fallback_witness :
    (get_exp_value (traits test_lib FlagValueType.FV_TYPE_UINT32) test_env (some "X".toList)
      (test_lib.string_hash "u".toList)).1 = some (5 : Nat) ∧
    (get_uint32 ⟨[("E".toList, some [(102, ⟨FlagValue._int32_value 1,
        FlagValueType.FV_TYPE_INT32, "f".toList⟩)])], test_default_flag_map, []⟩
      (some "E".toList) 117).1 = some 5 :=
  ⟨no_override_fallback test_lib FlagValueType.FV_TYPE_UINT32 test_env "X".toList "u".toList
      (5 : Nat) (by decide)
      (by
        intro fm h
        have h2 : Map.find test_env._p_expid_flag_map (c_string "X".toList) = none := by decide
        rw [h2] at h
        cases h),
    no_override_fallback test_lib FlagValueType.FV_TYPE_UINT32
      ⟨[("E".toList, some [(102, ⟨FlagValue._int32_value 1,
        FlagValueType.FV_TYPE_INT32, "f".toList⟩)])], test_default_flag_map, []⟩
      "E".toList "u".toList (5 : Nat) (by decide)
      (by
        intro fm h
        have h1 : fm = [(102, ⟨FlagValue._int32_value 1,
            FlagValueType.FV_TYPE_INT32, "f".toList⟩)] := by
          have h2 : Map.find [("E".toList, some [((102 : FlagID), (⟨FlagValue._int32_value 1,
              FlagValueType.FV_TYPE_INT32, "f".toList⟩ : Flag))])] (c_string "E".toList)
              = some (some [(102, ⟨FlagValue._int32_value 1,
                FlagValueType.FV_TYPE_INT32, "f".toList⟩)]) := by decide
          rw [h2] at h
          simp only [Option.some.injEq] at h
          exact h.symm
        subst h1
        decide)⟩

theorem get_default_value_expid_map {T : Type} (tt : type_traits T) (env : ExpEnvironment)
    (fid : FlagID) :
    (get_default_value tt env fid).2._p_expid_flag_map = env._p_expid_flag_map := by
  unfold get_default_value
  split_ifs <;> rfl

/-- C3: for a flag of any kind registered with default `d`: after `load_exp_config` on
any input, and for every override table, the getter called with a NULL experiment id
returns `d`. For every environment, when the experiment id is NULL or the flag id is
`INVALID_FLAG_ID` the getter returns what `get_default_value` returns, leaves the
override table alone, and returns the same whatever the override table holds. -/
theorem null_experiment_or_sentinel (L : Lib) (k : FlagValueType) (env : ExpEnvironment)
    (name : Str) (d : k.value_type) (fs : Str → Option Str) (file_path : Option Str)
    (hreg : registered L k env._p_default_flag_map name d) :
    (∃ env1, load_exp_config L fs env file_path = some env1 ∧
      (get_exp_value (traits L k) env1 none (L.string_hash name)).1 = some d) ∧
    (∀ em : ExpidFlagMap, (get_exp_value (traits L k) { env with _p_expid_flag_map := em }
      none (L.string_hash name)).1 = some d) ∧
    (∀ (env2 : ExpEnvironment) (exp_id : Option Str) (fid : FlagID),
      exp_id = none ∨ fid = INVALID_FLAG_ID →
      (get_exp_value (traits L k) env2 exp_id fid).1 = (get_default_value (traits L k) env2 fid).1 ∧
      (get_exp_value (traits L k) env2 exp_id fid).2._p_expid_flag_map
        = env2._p_expid_flag_map ∧
      ∀ em : ExpidFlagMap,
        (get_exp_value (traits L k) { env2 with _p_expid_flag_map := em } exp_id fid).1
          = (get_exp_value (traits L k) env2 exp_id fid).1) := by
  have hnull : ∀ env3 : ExpEnvironment,
      env3._p_default_flag_map = env._p_default_flag_map →
      (get_exp_value (traits L k) env3 none (L.string_hash name)).1 = some d := by
    intro env3 h3
    rw [get_exp_value_null_or_sentinel (traits L k) env3 none _ (Or.inl rfl),
      get_default_value_registered (traits L k) env3 _ _ (by rw [h3]; exact hreg)]
    exact traits_roundtrip L k d
  refine ⟨?_, fun em => hnull _ rfl, ?_⟩
  · obtain ⟨env1, h1, hd1⟩ := load_exp_config_effect L fs env file_path
    exact ⟨env1, h1, hnull env1 hd1⟩
  · intro env2 exp_id fid h
    refine ⟨get_exp_value_null_or_sentinel (traits L k) env2 exp_id fid h, ?_, ?_⟩
    · cases exp_id with
      | none => exact get_default_value_expid_map (traits L k) _ fid
      | some p =>
        have hf : fid = INVALID_FLAG_ID := by
          rcases h with h | h
          · exact absurd h (by simp)
          · exact h
        simp only [get_exp_value, hf, if_true]
        exact get_default_value_expid_map (traits L k) _ _
    · intro em
      rw [get_exp_value_null_or_sentinel (traits L k) _ exp_id fid h,
        get_exp_value_null_or_sentinel (traits L k) env2 exp_id fid h]
      exact get_default_value_value (traits L k) env2 _ fid rfl

/-- The bool flag b of the test registry has default true: with a NULL experiment id
`get_bool` returns true after loading a file that sets it to false in a section. -/
theorem null_experiment_or_sentinel_witness :
    ∃ env1, load_exp_config test_lib (test_fs "[E]\nb = false\n") test_env
        (some "exp.conf".toList) = some env1 ∧
      (get_exp_value (traits test_lib FlagValueType.FV_TYPE_BOOL) env1 none
        (test_lib.string_hash "b".toList)).1 = some true :=
  (null_experiment_or_sentinel test_lib FlagValueType.FV_TYPE_BOOL test_env "b".toList true
    (test_fs "[E]\nb = false\n") (some "exp.conf".toList) (by decide)).1

end exp_flag

namespace exp_flag

/-- C4 as stated fails: when section E assigns f = 1 and then f = 2, the override
entry for (E, f) after the load holds 1, the value of the first assignment, and not the
value 2 parsed from the last one; the getter returns 1. -/
theorem reassignment_does_not_overwrite :
    (load_exp_config test_lib (test_fs "[E]\nf = 1\nf = 2\n") test_env
        (some "exp.conf".toList)).map
      (fun env1 => (override_entry env1._p_expid_flag_map "E".toList 102,
        (get_int32 env1 (some "E".toList) 102).1))
      = some (some ⟨FlagValue._int32_value 1, FlagValueType.FV_TYPE_INT32, "f".toList⟩, some 1) ∧
    line_kind "f = 2".toList = LineKind.assignment "f".toList "2".toList ∧
    type_traits_int32_t.raw_to_flag_value (some "2".toList) = some (FlagValue._int32_value 2) := by
  decide

/-- C4, amended: when the section `E`, opened for the first time by `hdr`, assigns the
registered flag `f` on two lines `asg1` and `asg2` (`asg1` being the first line of the
section to assign it), the earlier assignment is kept: after the load the override
entry for (E, id(f)) is the flag built from the default's type and name and the value
parsed from `asg1`. -/
theorem reassignment_keeps_first (L : Lib) (fs : Str → Option Str) (env : ExpEnvironment)
    (path text : Str) (pre body mid post : List Str) (hdr asg1 asg2 E f v1 v2 : Str) (d : Flag)
    (hopen : fs (c_string path) = some text)
    (hlines : getlines text = pre ++ hdr :: (body ++ asg1 :: (mid ++ asg2 :: post)))
    (hpre : ∀ l ∈ pre, line_kind l ≠ LineKind.header E)
    (hhdr : line_kind hdr = LineKind.header E)
    (hbody : ∀ l ∈ body, (∀ id, line_kind l ≠ LineKind.header id) ∧
      (∀ name v, line_kind l = LineKind.assignment name v →
        L.string_hash name ≠ L.string_hash f))
    (hasg1 : line_kind asg1 = LineKind.assignment f v1)
    (_hmid : ∀ l ∈ mid, ∀ id, line_kind l ≠ LineKind.header id)
    (_hasg2 : line_kind asg2 = LineKind.assignment f v2)
    (hreg : Map.find env._p_default_flag_map (L.string_hash f) = some d) :
    ∃ env1, load_exp_config L fs env (some path) = some env1 ∧
      override_entry env1._p_expid_flag_map E (L.string_hash f)
        = some ⟨raw_value L d._type v1, d._type, d._flag_name⟩ := by
  obtain ⟨st1, hrun, _, hent⟩ := first_assignment_wins L (c_string path)
    { env with _p_expid_flag_map := [] } pre body (mid ++ asg2 :: post) hdr asg1 E f v1 d
    rfl hpre hhdr hbody hasg1 hreg
  refine ⟨st1.2, ?_, hent⟩
  rw [load_exp_config_lines L fs env path text hopen, hlines, hrun]
  rfl

/-- Section E assigns u = 3, then b, then u = 4: the entry for (E, u) holds 3. -/
theorem reassignment_keeps_first_witness :
    ∃ env1, load_exp_config test_lib (test_fs "[E]\nu = 3\nb = 0\nu = 4\n") test_env
        (some "exp.conf".toList) = some env1 ∧
      override_entry env1._p_expid_flag_map "E".toList (test_lib.string_hash "u".toList)
        = some ⟨raw_value test_lib FlagValueType.FV_TYPE_UINT32 "3".toList,
            FlagValueType.FV_TYPE_UINT32, "u".toList⟩ :=
  reassignment_keeps_first test_lib (test_fs "[E]\nu = 3\nb = 0\nu = 4\n") test_env
    "exp.conf".toList "[E]\nu = 3\nb = 0\nu = 4\n".toList [] [] ["b = 0".toList] []
    "[E]".toList "u = 3".toList "u = 4".toList "E".toList "u".toList "3".toList "4".toList
    ⟨FlagValue._uint32_value 5, FlagValueType.FV_TYPE_UINT32, "u".toList⟩
    (by decide) (by decide) (by decide) (by decide) (by intro l hl; cases hl) (by decide)
    (by
      intro l hl
      simp only [List.mem_singleton] at hl
      subst hl
      have hk : line_kind "b = 0".toList = LineKind.assignment "b".toList "0".toList := by decide
      rw [hk]
      intro id h
      cases h)
    (by decide) (by decide)

end exp_flag

namespace exp_flag

/-- C6: deleting from the configuration a line that is passed over (blank, comment,
no header and no `=`, or an assignment to an unregistered name) changes nothing:
both loads return, with the same override table and the same Default Flag Map, and
every getter returns the same for every experiment id and flag id. -/
theorem passed_over_line_is_noop (L : Lib) (fs fs1 : Str → Option Str) (env : ExpEnvironment)
    (path path1 text text1 : Str) (pre post : List Str) (l : Str)
    (hopen : fs (c_string path) = some text) (hopen1 : fs1 (c_string path1) = some text1)
    (hlines : getlines text = pre ++ l :: post) (hlines1 : getlines text1 = pre ++ post)
    (hl : passed_over L env._p_default_flag_map l) :
    ∃ env1 env2, load_exp_config L fs env (some path) = some env1 ∧
      load_exp_config L fs1 env (some path1) = some env2 ∧
      env1._p_expid_flag_map = env2._p_expid_flag_map ∧
      env1._p_default_flag_map = env2._p_default_flag_map ∧
      ∀ (k : FlagValueType) (exp_id : Option Str) (fid : FlagID),
        (get_exp_value (traits L k) env1 exp_id fid).1
          = (get_exp_value (traits L k) env2 exp_id fid).1 := by
  let st0 : Str × ExpEnvironment := ([], { env with _p_expid_flag_map := [] })
  have hnn0 : nonnull st0.2._p_expid_flag_map := nonnull_nil
  -- the first file
  obtain ⟨s1, r1, n1, d1, _, _⟩ := load_lines_effect L (c_string path) st0 pre hnn0
  obtain ⟨s1', rl, hl1⟩ := load_line_passed_over L (c_string path) s1 l (by rw [d1]; exact hl)
  obtain ⟨s1'', rl', n1', _⟩ := load_line_effect L (c_string path) s1 l n1
  have hsame : s1'' = s1' := by
    rw [rl] at rl'
    exact (Option.some.inj rl').symm
  subst hsame
  obtain ⟨s2, r2, _, _, _, _⟩ := load_lines_effect L (c_string path) s1'' post n1'
  have hA : load_lines L (c_string path) st0 (pre ++ l :: post) = some s2 := by
    rw [load_lines_append, r1]
    simp only [load_lines, rl]
    exact r2
  -- the second file
  obtain ⟨t1, q1, m1, _, _, _⟩ := load_lines_effect L (c_string path1) st0 pre hnn0
  obtain ⟨t2, q2, _, _, _, _⟩ := load_lines_effect L (c_string path1) t1 post m1
  have hB : load_lines L (c_string path1) st0 (pre ++ post) = some t2 := by
    rw [load_lines_append, q1]
    exact q2
  have ht1 : tables s1 = tables t1 := by
    have h := load_lines_tables L (c_string path) (c_string path1) st0 st0 pre rfl
    rw [r1, q1] at h
    simpa using h
  have ht2 : tables s2 = tables t2 := by
    have h := load_lines_tables L (c_string path) (c_string path1) s1'' t1 post
      (hl1.trans ht1)
    rw [r2, q2] at h
    simpa using h
  simp only [tables, Prod.mk.injEq] at ht2
  obtain ⟨_, hem, hdm⟩ := ht2
  refine ⟨s2.2, t2.2, ?_, ?_, hem, hdm, ?_⟩
  · rw [load_exp_config_lines L fs env path text hopen, hlines, hA]
    rfl
  · rw [load_exp_config_lines L fs1 env path1 text1 hopen1, hlines1, hB]
    rfl
  · intro k exp_id fid
    exact get_exp_value_tables (traits L k) t2.2 s2.2 exp_id fid hem hdm

/-- Deleting the line `nosuchflag = 1` from a file leaves the override table as it is. -/
theorem passed_over_line_is_noop_witness :
    ∃ env1 env2,
      load_exp_config test_lib (test_fs "[E]\nnosuchflag = 1\nf = 3\n") test_env
        (some "exp.conf".toList) = some env1 ∧
      load_exp_config test_lib (test_fs "[E]\nf = 3\n") test_env
        (some "exp.conf".toList) = some env2 ∧
      env1._p_expid_flag_map = env2._p_expid_flag_map ∧
      env1._p_default_flag_map = env2._p_default_flag_map ∧
      ∀ (k : FlagValueType) (exp_id : Option Str) (fid : FlagID),
        (get_exp_value (traits test_lib k) env1 exp_id fid).1
          = (get_exp_value (traits test_lib k) env2 exp_id fid).1 :=
  passed_over_line_is_noop test_lib (test_fs "[E]\nnosuchflag = 1\nf = 3\n")
    (test_fs "[E]\nf = 3\n") test_env "exp.conf".toList "exp.conf".toList
    "[E]\nnosuchflag = 1\nf = 3\n".toList "[E]\nf = 3\n".toList
    ["[E]".toList] ["f = 3".toList] "nosuchflag = 1".toList
    (by decide) (by decide) (by decide) (by decide)
    (Or.inr (Or.inr ⟨"nosuchflag".toList, "1".toList, by decide, by decide⟩))

theorem raw_value_bool (L : Lib) (t : Str) :
    raw_value L FlagValueType.FV_TYPE_BOOL t
      = FlagValue._bool_value
          (decide (c_string t = "true".toList ∨ c_string t = "1".toList)) := by
  simp only [raw_value, traits, type_traits_bool]
  split_ifs with h1 h2
  · rw [decide_eq_true h1]
    rfl
  · rw [decide_eq_false h1]
    rfl
  · rw [decide_eq_false h1]
    rfl

/-- C7 as stated fails for a text with a NUL character. The text made of the
characters 1, NUL, x is neither `true` nor `1`, yet for the BOOL flag b (registered
with default false) `set_exp_flag_value` stores the value true, and so does the loader
for the line `b = ` followed by that text: `value.c_str()` ends at the NUL for
`strcmp`. -/
theorem bool_override_text_with_nul :
    set_exp_flag_value test_lib
        ⟨[("E".toList, some [])],
          [(98, ⟨FlagValue._bool_value false, FlagValueType.FV_TYPE_BOOL, "b".toList⟩)], []⟩
        "E".toList "b".toList ['1', Char.ofNat 0, 'x']
      = some (true,
        ⟨[("E".toList, some [(98, ⟨FlagValue._bool_value true,
            FlagValueType.FV_TYPE_BOOL, "b".toList⟩)])],
          [(98, ⟨FlagValue._bool_value false, FlagValueType.FV_TYPE_BOOL, "b".toList⟩)], []⟩) ∧
    ['1', Char.ofNat 0, 'x'] ≠ "true".toList ∧
    ['1', Char.ofNat 0, 'x'] ≠ "1".toList ∧
    load_exp_config test_lib
        (fun _ => some ("[E]\nb = ".toList ++ ['1', Char.ofNat 0, 'x', Char.ofNat 10]))
        ⟨[], [(98, ⟨FlagValue._bool_value false, FlagValueType.FV_TYPE_BOOL, "b".toList⟩)], []⟩
        (some "exp.conf".toList)
      = some ⟨[("E".toList, some [(98, ⟨FlagValue._bool_value true,
            FlagValueType.FV_TYPE_BOOL, "b".toList⟩)])],
          [(98, ⟨FlagValue._bool_value false, FlagValueType.FV_TYPE_BOOL, "b".toList⟩)], []⟩ := by
  decide

/-- C7, amended: for a flag registered with type BOOL, whatever its default, and every
override text `t`, `set_exp_flag_value` in a section returns true without a
diagnostic, and the flag it inserts has the value true if and only if the C string of
`t` (its characters before the first NUL, all of `t` when it has none) is exactly
`true` or `1`, and false otherwise; when the section had no entry for the flag, that
flag is the entry afterwards. -/
theorem bool_override_text (L : Lib) (env : ExpEnvironment) (expid flag_name t : Str)
    (d : Flag) (fm : FlagMap)
    (hreg : Map.find env._p_default_flag_map (L.string_hash flag_name) = some d)
    (hbool : d._type = FlagValueType.FV_TYPE_BOOL)
    (hsec : Map.find env._p_expid_flag_map expid = some (some fm)) :
    ∃ (b : Bool) (env1 : ExpEnvironment),
      (b = true ↔ (c_string t = "true".toList ∨ c_string t = "1".toList)) ∧
      ((∀ c ∈ t, c.toNat ≠ 0) → (b = true ↔ (t = "true".toList ∨ t = "1".toList))) ∧
      set_exp_flag_value L env expid flag_name t = some (true, env1) ∧
      env1.glog = env.glog ∧
      env1._p_expid_flag_map = Map.assign env._p_expid_flag_map expid
        (some (Map.insert fm (L.string_hash flag_name)
          ⟨FlagValue._bool_value b, FlagValueType.FV_TYPE_BOOL, d._flag_name⟩)) ∧
      (Map.find fm (L.string_hash flag_name) = none →
        override_entry env1._p_expid_flag_map expid (L.string_hash flag_name)
          = some ⟨FlagValue._bool_value b, FlagValueType.FV_TYPE_BOOL, d._flag_name⟩) := by
  refine ⟨decide (c_string t = "true".toList ∨ c_string t = "1".toList),
    with_flag_map env expid (Map.insert fm (L.string_hash flag_name) (override_flag L d t)),
    decide_eq_true_iff, ?_, ?_, ?_, ?_, ?_⟩
  · intro ht
    rw [c_string_of_no_nul t ht]
    exact decide_eq_true_iff
  · rw [set_exp_flag_value_registered L env expid flag_name t d hreg, hsec]
  · rfl
  · simp only [with_flag_map, override_flag, hbool, raw_value_bool L t]
  · intro hnew
    rw [override_entry_with_flag_map env expid expid fm _ _ hsec]
    simp only [if_true]
    rw [Map.find_insert_new fm _ _ _ hnew]
    simp [override_flag, hbool, raw_value_bool L t]

/-- The text maybe for the bool flag b (default true) stores false; no diagnostic. -/
theorem bool_override_text_witness :
    ∃ (b : Bool) (env1 : ExpEnvironment),
      (b = true ↔ (c_string "maybe".toList = "true".toList ∨
        c_string "maybe".toList = "1".toList)) ∧
      ((∀ c ∈ "maybe".toList, c.toNat ≠ 0) →
        (b = true ↔ ("maybe".toList = "true".toList ∨ "maybe".toList = "1".toList))) ∧
      set_exp_flag_value test_lib ⟨[("E".toList, some [])], test_default_flag_map, []⟩
        "E".toList "b".toList "maybe".toList = some (true, env1) ∧
      env1.glog = [] ∧
      env1._p_expid_flag_map = Map.assign [("E".toList, some [])] "E".toList
        (some (Map.insert [] (test_lib.string_hash "b".toList)
          ⟨FlagValue._bool_value b, FlagValueType.FV_TYPE_BOOL, "b".toList⟩)) ∧
      (Map.find ([] : FlagMap) (test_lib.string_hash "b".toList) = none →
        override_entry env1._p_expid_flag_map "E".toList (test_lib.string_hash "b".toList)
          = some ⟨FlagValue._bool_value b, FlagValueType.FV_TYPE_BOOL, "b".toList⟩) :=
  bool_override_text test_lib ⟨[("E".toList, some [])], test_default_flag_map, []⟩
    "E".toList "b".toList "maybe".toList
    ⟨FlagValue._bool_value true, FlagValueType.FV_TYPE_BOOL, "b".toList⟩ []
    (by decide) rfl (by decide)

/-- Registering the name ab after ba, which has the same hash, is rejected and the
map keeps the entry of ba. -/
theorem register_flag_duplicate_rejected_witness :
    register_flag test_lib type_traits_int32_t
        [(195, ⟨FlagValue._bool_value true, FlagValueType.FV_TYPE_BOOL, "ba".toList⟩)]
        (some "ab".toList) 3 =
      (INVALID_FLAG_ID,
        [(195, ⟨FlagValue._bool_value true, FlagValueType.FV_TYPE_BOOL, "ba".toList⟩)],
        [⟨Severity.FATAL, "exp flag [".toList ++ c_string "ab".toList
          ++ "]is conflict with [".toList ++ "ba".toList ++ "]\n".toList⟩]) ∧
    Map.find (register_flag test_lib type_traits_int32_t
        [(195, ⟨FlagValue._bool_value true, FlagValueType.FV_TYPE_BOOL, "ba".toList⟩)]
        (some "ab".toList) 3).2.1 (test_lib.string_hash (c_string "ab".toList))
      = some ⟨FlagValue._bool_value true, FlagValueType.FV_TYPE_BOOL, "ba".toList⟩ :=
  register_flag_duplicate_rejected test_lib type_traits_int32_t
    [(195, ⟨FlagValue._bool_value true, FlagValueType.FV_TYPE_BOOL, "ba".toList⟩)]
    "ab".toList 3 ⟨FlagValue._bool_value true, FlagValueType.FV_TYPE_BOOL, "ba".toList⟩
    (by decide)

end exp_flag

/-! ## Claims on registration -/

namespace exp_flag

namespace Map

variable {K V : Type} [DecidableEq K] [LT K] [DecidableRel (α := K) (· < ·)]

theorem mem_place (m : List (K × V)) (k : K) (v : V) (x : K × V) :
    x ∈ place m k v ↔ x = (k, v) ∨ x ∈ m := by
  induction m with
  | nil => simp [place]
  | cons e m ih =>
    obtain ⟨k1, v1⟩ := e
    by_cases hlt : k < k1
    · simp [place, hlt]
    · simp only [place, hlt, if_false, List.mem_cons, ih]
      tauto

end Map

/-- C11: `register_flag` called with the empty string on an empty registry. The name
is not rejected: the flag is inserted under the hash of the empty string and that id
is returned, without a diagnostic; only a NULL name gives the diagnostic
`empty flag name`. -/
theorem empty_name_is_registered :
    register_flag test_lib type_traits_bool [] (some "".toList) true
      = (0, [(0, ⟨FlagValue._bool_value true, FlagValueType.FV_TYPE_BOOL, []⟩)], []) ∧
    register_flag test_lib type_traits_bool [] none true
      = (INVALID_FLAG_ID, [], [⟨Severity.FATAL, "empty flag name\n".toList⟩]) := by
  decide

/-- C12: for a non-NULL name whose hash is not yet a key, `register_flag` returns the
hash without a diagnostic, and the new Default Flag Map is the old one with the entry
hash -> Flag{name, to_type(T), wrap(d)} inserted: its entries are that entry and the old
entries, the new key maps to the new flag, and every other key maps to what it mapped
to before. -/
theorem register_flag_success (L : Lib) {T : Type} (tt : type_traits T)
    (default_flag_map : FlagMap) (flag_name : Str) (value : T)
    (h : Map.find default_flag_map (L.string_hash (c_string flag_name)) = none) :
    register_flag L tt default_flag_map (some flag_name) value =
      (L.string_hash (c_string flag_name),
        Map.insert default_flag_map (L.string_hash (c_string flag_name))
          ⟨tt.value_to_flag_value value, tt.to_type, c_string flag_name⟩, []) ∧
    (∀ entry, entry ∈ (register_flag L tt default_flag_map (some flag_name) value).2.1 ↔
      entry = (L.string_hash (c_string flag_name),
          ⟨tt.value_to_flag_value value, tt.to_type, c_string flag_name⟩) ∨
        entry ∈ default_flag_map) ∧
    (∀ x, Map.find (register_flag L tt default_flag_map (some flag_name) value).2.1 x =
      if x = L.string_hash (c_string flag_name) then
        some ⟨tt.value_to_flag_value value, tt.to_type, c_string flag_name⟩
      else Map.find default_flag_map x) := by
  have hr : register_flag L tt default_flag_map (some flag_name) value =
      (L.string_hash (c_string flag_name),
        Map.insert default_flag_map (L.string_hash (c_string flag_name))
          ⟨tt.value_to_flag_value value, tt.to_type, c_string flag_name⟩, []) := by
    simp [register_flag, h]
  refine ⟨hr, ?_, ?_⟩
  · intro entry
    rw [hr]
    simp only [Map.insert, h]
    exact Map.mem_place _ _ _ _
  · intro x
    rw [hr]
    exact Map.find_insert_new _ _ _ _ h

/-- Registering u after f and b in the test registry returns 117 and adds one entry. -/
theorem register_flag_success_witness :
    register_flag test_lib type_traits_uint32_t
        [(98, ⟨FlagValue._bool_value true, FlagValueType.FV_TYPE_BOOL, "b".toList⟩),
         (102, ⟨FlagValue._int32_value 7, FlagValueType.FV_TYPE_INT32, "f".toList⟩)]
        (some "u".toList) 5
      = (117, test_default_flag_map, []) :=
  (register_flag_success test_lib type_traits_uint32_t
    [(98, ⟨FlagValue._bool_value true, FlagValueType.FV_TYPE_BOOL, "b".toList⟩),
     (102, ⟨FlagValue._int32_value 7, FlagValueType.FV_TYPE_INT32, "f".toList⟩)]
    "u".toList 5 (by decide)).1

end exp_flag

/-! ## Claims on the frame of the getters and of the load -/

namespace exp_flag

theorem Map.assign_same {K V : Type} [DecidableEq K] (m : List (K × V)) (k : K) (v : V)
    (h : Map.find m k = some v) : Map.assign m k v = m := by
  induction m with
  | nil => rfl
  | cons e m ih =>
    obtain ⟨k1, v1⟩ := e
    by_cases hk : k = k1
    · subst hk
      simp only [Map.find, if_true, Option.some.injEq] at h
      subst h
      simp [Map.assign]
    · simp only [Map.find, hk, if_false] at h
      simp [Map.assign, hk, ih h]

theorem get_default_value_default_map {T : Type} (tt : type_traits T) (env : ExpEnvironment)
    (fid : FlagID) :
    (get_default_value tt env fid).2._p_default_flag_map = env._p_default_flag_map := by
  unfold get_default_value
  split_ifs with h
  · rfl
  · cases hf : Map.find env._p_default_flag_map fid with
    | none => exact absurd hf h
    | some d => simp [Map.subscript_present _ _ _ _ hf]

/-- The getters leave both maps as they are. -/
theorem get_exp_value_frame {T : Type} (tt : type_traits T) (env : ExpEnvironment)
    (exp_id : Option Str) (fid : FlagID) :
    (get_exp_value tt env exp_id fid).2._p_expid_flag_map = env._p_expid_flag_map ∧
    (get_exp_value tt env exp_id fid).2._p_default_flag_map = env._p_default_flag_map := by
  cases exp_id with
  | none =>
    exact ⟨get_default_value_expid_map tt _ fid, get_default_value_default_map tt _ fid⟩
  | some p =>
    by_cases hf : INVALID_FLAG_ID = fid
    · simp only [get_exp_value, hf, if_true]
      exact ⟨get_default_value_expid_map tt _ fid, get_default_value_default_map tt _ fid⟩
    · simp only [get_exp_value, hf, if_false]
      cases hk : Map.find env._p_expid_flag_map (c_string p) with
      | none =>
        simp only [ne_eq, not_true_eq_false, if_false]
        exact ⟨get_default_value_expid_map tt _ fid, get_default_value_default_map tt _ fid⟩
      | some q =>
        simp only [ne_eq, reduceCtorEq, not_false_eq_true, if_true,
          Map.subscript_present _ _ _ _ hk]
        cases q with
        | none =>
          exact ⟨get_default_value_expid_map tt _ fid, get_default_value_default_map tt _ fid⟩
        | some fm =>
          simp only []
          by_cases hfm : Map.find fm fid = none
          · rw [if_pos hfm]
            exact ⟨get_default_value_expid_map tt _ fid, get_default_value_default_map tt _ fid⟩
          · rw [if_neg hfm]
            cases hfm1 : Map.find fm fid with
            | none => exact absurd hfm1 hfm
            | some f =>
              simp only [Map.subscript_present _ _ _ _ hfm1]
              exact ⟨Map.assign_same _ _ _ hk, trivial⟩

/-- C17: for every experiment id (NULL, unknown or known) and every flag id, each typed
getter returns an environment whose override table and Default Flag Map are the ones
it was called on (the subscript lookups insert no key); and `load_exp_config` returns,
for every input, an environment with the Default Flag Map it was given. -/
theorem read_only_after_initialization (L : Lib) (env : ExpEnvironment)
    (exp_id : Option Str) (fid : FlagID) (fs : Str → Option Str) (file_path : Option Str) :
    ((get_bool env exp_id fid).2._p_expid_flag_map = env._p_expid_flag_map ∧
      (get_bool env exp_id fid).2._p_default_flag_map = env._p_default_flag_map) ∧
    ((get_int32 env exp_id fid).2._p_expid_flag_map = env._p_expid_flag_map ∧
      (get_int32 env exp_id fid).2._p_default_flag_map = env._p_default_flag_map) ∧
    ((get_uint32 env exp_id fid).2._p_expid_flag_map = env._p_expid_flag_map ∧
      (get_uint32 env exp_id fid).2._p_default_flag_map = env._p_default_flag_map) ∧
    ((get_float L env exp_id fid).2._p_expid_flag_map = env._p_expid_flag_map ∧
      (get_float L env exp_id fid).2._p_default_flag_map = env._p_default_flag_map) ∧
    (∃ env1, load_exp_config L fs env file_path = some env1 ∧
      env1._p_default_flag_map = env._p_default_flag_map) :=
  ⟨get_exp_value_frame type_traits_bool env exp_id fid,
    get_exp_value_frame type_traits_int32_t env exp_id fid,
    get_exp_value_frame type_traits_uint32_t env exp_id fid,
    get_exp_value_frame (type_traits_float L) env exp_id fid,
    load_exp_config_effect L fs env file_path⟩

/-- C19: when the path is NULL or the file cannot be opened, `load_exp_config` returns
with an empty override table, and afterwards every getter returns, for every
experiment id and every registered flag, the registered default. -/
theorem missing_file_no_overrides (L : Lib) (fs : Str → Option Str) (env : ExpEnvironment)
    (file_path : Option Str)
    (h : file_path = none ∨ ∃ p, file_path = some p ∧ fs (c_string p) = none) :
    ∃ env1, load_exp_config L fs env file_path = some env1 ∧
      env1._p_expid_flag_map = [] ∧
      ∀ (k : FlagValueType) (name : Str) (d : k.value_type) (exp_id : Option Str),
        registered L k env._p_default_flag_map name d →
        (get_exp_value (traits L k) env1 exp_id (L.string_hash name)).1 = some d := by
  have hget : ∀ env1 : ExpEnvironment, env1._p_expid_flag_map = [] →
      env1._p_default_flag_map = env._p_default_flag_map →
      ∀ (k : FlagValueType) (name : Str) (d : k.value_type) (exp_id : Option Str),
        registered L k env._p_default_flag_map name d →
        (get_exp_value (traits L k) env1 exp_id (L.string_hash name)).1 = some d := by
    intro env1 hem hdm k name d exp_id hreg
    have hdef : (get_default_value (traits L k) env1 (L.string_hash name)).1 = some d := by
      rw [get_default_value_registered (traits L k) env1 _ _ (by rw [hdm]; exact hreg)]
      exact traits_roundtrip L k d
    cases exp_id with
    | none => rw [get_exp_value_null_or_sentinel (traits L k) env1 none _ (Or.inl rfl), hdef]
    | some e =>
      rw [get_exp_value_no_entry (traits L k) env1 e _ (by rw [hem]; rfl), hdef]
  rcases h with h | ⟨p, h, hp⟩
  · subst h
    exact ⟨_, rfl, rfl, hget _ rfl rfl⟩
  · subst h
    refine ⟨(({ env with _p_expid_flag_map := [] } : ExpEnvironment).LOG Severity.FATAL
      "open exp config failed\n".toList), ?_, rfl, hget _ rfl rfl⟩
    simp [load_exp_config, hp]

/-- Without the file exp.conf the override table is empty and `get_int32` returns
the default 7 of f under any experiment id. -/
theorem missing_file_no_overrides_witness :
    ∃ env1, load_exp_config test_lib (fun _ => none) test_env (some "exp.conf".toList)
        = some env1 ∧
      env1._p_expid_flag_map = [] ∧
      ∀ (k : FlagValueType) (name : Str) (d : k.value_type) (exp_id : Option Str),
        registered test_lib k test_env._p_default_flag_map name d →
        (get_exp_value (traits test_lib k) env1 exp_id (test_lib.string_hash name)).1 = some d :=
  missing_file_no_overrides test_lib (fun _ => none) test_env (some "exp.conf".toList)
    (Or.inr ⟨"exp.conf".toList, rfl, rfl⟩)

/-- C20: the override table only grows during a load: every experiment id that is a
key after a first part of the lines is a key after the whole file, and every override
entry present after the first part is present, as the same flag (value, type and
name), after the whole file. -/
theorem override_table_only_grows (L : Lib) (fs : Str → Option Str) (env : ExpEnvironment)
    (path text : Str) (pre rest : List Str)
    (hopen : fs (c_string path) = some text)
    (hlines : getlines text = pre ++ rest) :
    ∃ st1 env2,
      load_lines L (c_string path) ([], { env with _p_expid_flag_map := [] }) pre = some st1 ∧
      load_exp_config L fs env (some path) = some env2 ∧
      (∀ e, Map.find st1.2._p_expid_flag_map e ≠ none →
        Map.find env2._p_expid_flag_map e ≠ none) ∧
      (∀ e fid f, override_entry st1.2._p_expid_flag_map e fid = some f →
        override_entry env2._p_expid_flag_map e fid = some f) := by
  obtain ⟨s1, r1, n1, _, _, _⟩ := load_lines_effect L (c_string path)
    ([], { env with _p_expid_flag_map := [] }) pre nonnull_nil
  obtain ⟨s2, r2, _, _, hk, he⟩ := load_lines_effect L (c_string path) s1 rest n1
  refine ⟨s1, s2.2, r1, ?_, hk, he⟩
  rw [load_exp_config_lines L fs env path text hopen, hlines, load_lines_append, r1]
  simp only [r2]
  rfl

/-- After the first two lines section E holds f = 1; the entry is still there after the
whole file, which assigns f again and repeats the header. -/
theorem override_table_only_grows_witness :
    ∃ st1 env2,
      load_lines test_lib (c_string "exp.conf".toList)
        ([], { test_env with _p_expid_flag_map := [] }) ["[E]".toList, "f = 1".toList]
        = some st1 ∧
      load_exp_config test_lib (test_fs "[E]\nf = 1\nf = 2\n[E]\nf = 3\n") test_env
        (some "exp.conf".toList) = some env2 ∧
      (∀ e, Map.find st1.2._p_expid_flag_map e ≠ none →
        Map.find env2._p_expid_flag_map e ≠ none) ∧
      (∀ e fid f, override_entry st1.2._p_expid_flag_map e fid = some f →
        override_entry env2._p_expid_flag_map e fid = some f) :=
  override_table_only_grows test_lib (test_fs "[E]\nf = 1\nf = 2\n[E]\nf = 3\n") test_env
    "exp.conf".toList "[E]\nf = 1\nf = 2\n[E]\nf = 3\n".toList
    ["[E]".toList, "f = 1".toList] ["f = 2".toList, "[E]".toList, "f = 3".toList]
    (by decide) (by decide)

end exp_flag

/-! ## Invariants of the override table -/

namespace exp_flag

namespace Map

variable {K V : Type} [DecidableEq K] [LT K] [DecidableRel (α := K) (· < ·)]

theorem place_keys_mem (m : List (K × V)) (k : K) (v : V) (x : K) :
    x ∈ (place m k v).map Prod.fst ↔ x = k ∨ x ∈ m.map Prod.fst := by
  simp only [List.mem_map, Prod.exists, exists_and_right, exists_eq_right, mem_place,
    Prod.mk.injEq]
  constructor
  · rintro ⟨w, h⟩
    rcases h with ⟨h1, _⟩ | h
    · exact Or.inl h1
    · exact Or.inr ⟨w, h⟩
  · rintro (h | ⟨w, h⟩)
    · exact ⟨v, Or.inl ⟨h, rfl⟩⟩
    · exact ⟨w, Or.inr h⟩

theorem place_distinct (m : List (K × V)) (k : K) (v : V)
    (hd : distinct_keys m) (hk : k ∉ m.map Prod.fst) : distinct_keys (place m k v) := by
  induction m with
  | nil => simp [place, distinct_keys]
  | cons e m ih =>
    obtain ⟨k1, v1⟩ := e
    simp only [distinct_keys, List.map_cons, List.nodup_cons] at hd
    simp only [List.map_cons, List.mem_cons, not_or] at hk
    by_cases hlt : k < k1
    · simp only [place, hlt, if_true, distinct_keys, List.map_cons, List.nodup_cons,
        List.mem_cons, not_or]
      exact ⟨⟨hk.1, hk.2⟩, hd.1, hd.2⟩
    · simp only [place, hlt, if_false, distinct_keys, List.map_cons, List.nodup_cons]
      refine ⟨?_, ih hd.2 hk.2⟩
      rw [place_keys_mem]
      intro h
      rcases h with h | h
      · exact hk.1 h.symm
      · exact hd.1 h

end Map

theorem Map.find_none_iff {K V : Type} [DecidableEq K] (m : List (K × V)) (k : K) :
    Map.find m k = none ↔ k ∉ m.map Prod.fst := by
  induction m with
  | nil => simp [Map.find]
  | cons e m ih =>
    obtain ⟨k1, v1⟩ := e
    by_cases hk : k = k1
    · simp [Map.find, hk]
    · simp [Map.find, hk, ih]

theorem Map.find_mem {K V : Type} [DecidableEq K] (m : List (K × V)) (k : K) (v : V)
    (h : Map.find m k = some v) : (k, v) ∈ m := by
  induction m with
  | nil => simp [Map.find] at h
  | cons e m ih =>
    obtain ⟨k1, v1⟩ := e
    by_cases hk : k = k1
    · subst hk
      simp only [Map.find, if_true, Option.some.injEq] at h
      subst h
      exact List.mem_cons_self _ _
    · simp only [Map.find, hk, if_false] at h
      exact List.mem_cons_of_mem _ (ih h)

theorem Map.mem_find {K V : Type} [DecidableEq K] (m : List (K × V)) (k : K) (v : V)
    (hd : Map.distinct_keys m) (h : (k, v) ∈ m) : Map.find m k = some v := by
  induction m with
  | nil => simp at h
  | cons e m ih =>
    obtain ⟨k1, v1⟩ := e
    simp only [Map.distinct_keys, List.map_cons, List.nodup_cons] at hd
    simp only [List.mem_cons, Prod.mk.injEq] at h
    rcases h with ⟨h1, h2⟩ | h
    · simp [Map.find, h1, h2]
    · have hk : k ≠ k1 := by
        intro hk
        apply hd.1
        rw [← hk]
        exact List.mem_map.mpr ⟨(k, v), h, rfl⟩
      simp only [Map.find, hk, if_false]
      exact ih hd.2 h

theorem Map.insert_distinct {K V : Type} [DecidableEq K] [LT K]
    [DecidableRel (α := K) (· < ·)] (m : List (K × V)) (k : K) (v : V)
    (hd : Map.distinct_keys m) : Map.distinct_keys (Map.insert m k v) := by
  unfold Map.insert
  cases h : Map.find m k with
  | some w => exact hd
  | none => exact Map.place_distinct m k v hd ((Map.find_none_iff m k).mp h)

theorem Map.assign_keys {K V : Type} [DecidableEq K] (m : List (K × V)) (k : K) (v : V) :
    (Map.assign m k v).map Prod.fst = m.map Prod.fst := by
  induction m with
  | nil => rfl
  | cons e m ih =>
    obtain ⟨k1, v1⟩ := e
    by_cases hk : k = k1
    · simp [Map.assign, hk]
    · simp [Map.assign, hk, ih]

theorem Map.mem_assign {K V : Type} [DecidableEq K] (m : List (K × V)) (k : K) (v : V)
    (x : K × V) (h : x ∈ Map.assign m k v) : x ∈ m ∨ x = (k, v) := by
  induction m with
  | nil => simp [Map.assign] at h
  | cons e m ih =>
    obtain ⟨k1, v1⟩ := e
    by_cases hk : k = k1
    · subst hk
      simp only [Map.assign, if_true, List.mem_cons] at h
      rcases h with h | h
      · exact Or.inr h
      · exact Or.inl (List.mem_cons_of_mem _ h)
    · simp only [Map.assign, hk, if_false, List.mem_cons] at h
      rcases h with h | h
      · exact Or.inl (by rw [h]; exact List.mem_cons_self _ _)
      · rcases ih h with h1 | h1
        · exact Or.inl (List.mem_cons_of_mem _ h1)
        · exact Or.inr h1

theorem tables_distinct_nil : tables_distinct ([] : ExpidFlagMap) := by
  refine ⟨by simp [Map.distinct_keys], ?_⟩
  intro e fm h
  simp at h

theorem tables_distinct_with_section (env : ExpEnvironment) (id : Str)
    (h : tables_distinct env._p_expid_flag_map) :
    tables_distinct (with_section env id)._p_expid_flag_map := by
  refine ⟨Map.insert_distinct _ _ _ h.1, ?_⟩
  intro e fm hmem
  simp only [with_section, Map.insert] at hmem
  cases hf : Map.find env._p_expid_flag_map id with
  | some w =>
    rw [hf] at hmem
    exact h.2 e fm hmem
  | none =>
    rw [hf] at hmem
    simp only [Map.mem_place, Prod.mk.injEq, Option.some.injEq] at hmem
    rcases hmem with ⟨_, h2⟩ | hmem
    · rw [h2]
      simp [Map.distinct_keys]
    · exact h.2 e fm hmem

theorem tables_distinct_with_flag_map (env : ExpEnvironment) (cur : Str)
    (fm : FlagMap) (fid : FlagID) (flag : Flag)
    (h : tables_distinct env._p_expid_flag_map)
    (hfm : Map.find env._p_expid_flag_map cur = some (some fm)) :
    tables_distinct (with_flag_map env cur (Map.insert fm fid flag))._p_expid_flag_map := by
  refine ⟨?_, ?_⟩
  · simp only [with_flag_map, Map.distinct_keys, Map.assign_keys]
    exact h.1
  · intro e fm1 hmem
    rcases Map.mem_assign _ _ _ _ hmem with h1 | h1
    · exact h.2 e fm1 h1
    · simp only [Prod.mk.injEq, Option.some.injEq] at h1
      rw [h1.2]
      exact Map.insert_distinct _ _ _ (h.2 cur fm (Map.find_mem _ _ _ hfm))

/-- One line keeps the keys distinct and keeps every override entry built from the
default entry of its flag id. -/
theorem load_line_invariants (L : Lib) (fp : Str) (st st1 : Str × ExpEnvironment) (l : Str)
    (hnn : nonnull st.2._p_expid_flag_map)
    (hrun : load_line L fp st l = some st1) :
    (tables_distinct st.2._p_expid_flag_map → tables_distinct st1.2._p_expid_flag_map) ∧
    (from_defaults L st.2._p_expid_flag_map st.2._p_default_flag_map →
      from_defaults L st1.2._p_expid_flag_map st1.2._p_default_flag_map) := by
  rcases load_line_cases L fp st l hnn with
    ⟨_, h⟩ | ⟨id, _, hf, h⟩ | ⟨id, msg, _, _, h⟩ | ⟨msg, _, h⟩ |
    ⟨n, v, msg, _, _, h⟩ | ⟨n, v, d, fm, _, hfm, hd, h⟩
  all_goals rw [h] at hrun
  all_goals simp only [Option.some.injEq] at hrun
  all_goals subst hrun
  · exact ⟨fun h => h, fun h => h⟩
  · refine ⟨tables_distinct_with_section st.2 id, ?_⟩
    intro hfd e fid f he
    rw [override_entry_with_section st.2 id e fid hf] at he
    exact hfd e fid f he
  · exact ⟨fun h => h, fun h => h⟩
  · exact ⟨fun h => h, fun h => h⟩
  · exact ⟨fun h => h, fun h => h⟩
  · refine ⟨fun hdist => tables_distinct_with_flag_map st.2 st.1 fm _ _ hdist hfm, ?_⟩
    intro hfd e fid f he
    rw [override_entry_with_flag_map st.2 st.1 e fm _ fid hfm] at he
    have hold : override_entry st.2._p_expid_flag_map st.1 fid = Map.find fm fid := by
      simp [override_entry, hfm]
    by_cases hec : e = st.1
    · subst hec
      simp only [if_true] at he
      cases hexist : Map.find fm (L.string_hash n) with
      | some w =>
        rw [Map.insert_present fm _ _ w hexist] at he
        exact hfd st.1 fid f (by rw [hold]; exact he)
      | none =>
        rw [Map.find_insert_new fm _ _ fid hexist] at he
        by_cases hx : fid = L.string_hash n
        · subst hx
          simp only [if_true, Option.some.injEq] at he
          exact ⟨d, v, hd, he.symm⟩
        · simp only [hx, if_false] at he
          exact hfd st.1 fid f (by rw [hold]; exact he)
    · simp only [hec, if_false] at he
      exact hfd e fid f he

theorem load_lines_invariants (L : Lib) (fp : Str) (st st1 : Str × ExpEnvironment)
    (ls : List Str) (hnn : nonnull st.2._p_expid_flag_map)
    (hrun : load_lines L fp st ls = some st1) :
    (tables_distinct st.2._p_expid_flag_map → tables_distinct st1.2._p_expid_flag_map) ∧
    (from_defaults L st.2._p_expid_flag_map st.2._p_default_flag_map →
      from_defaults L st1.2._p_expid_flag_map st1.2._p_default_flag_map) := by
  induction ls generalizing st with
  | nil =>
    simp only [load_lines, Option.some.injEq] at hrun
    subst hrun
    exact ⟨fun h => h, fun h => h⟩
  | cons l ls ih =>
    obtain ⟨s1, h1, hn1, _⟩ := load_line_effect L fp st l hnn
    simp only [load_lines, h1] at hrun
    obtain ⟨a1, a2⟩ := load_line_invariants L fp st s1 l hnn h1
    obtain ⟨b1, b2⟩ := ih s1 hn1 hrun
    exact ⟨fun h => b1 (a1 h), fun h => b2 (a2 h)⟩

theorem from_defaults_nil (L : Lib) (dm : FlagMap) : from_defaults L [] dm := by
  intro e fid f h
  simp [override_entry, Map.find] at h

end exp_flag

namespace exp_flag

/-- The state after any lines, processed from the start of a load: the loop returns,
the Default Flag Map is the given one, no stored pointer is NULL, the keys are distinct
and every override entry is built from a default entry. -/
theorem load_lines_from_start (L : Lib) (fp : Str) (env : ExpEnvironment) (ls : List Str) :
    ∃ st1, load_lines L fp ([], { env with _p_expid_flag_map := [] }) ls = some st1 ∧
      st1.2._p_default_flag_map = env._p_default_flag_map ∧
      nonnull st1.2._p_expid_flag_map ∧
      tables_distinct st1.2._p_expid_flag_map ∧
      from_defaults L st1.2._p_expid_flag_map env._p_default_flag_map := by
  obtain ⟨s1, r1, n1, d1, _, _⟩ := load_lines_effect L fp
    ([], { env with _p_expid_flag_map := [] }) ls nonnull_nil
  obtain ⟨a1, a2⟩ := load_lines_invariants L fp _ s1 ls nonnull_nil r1
  refine ⟨s1, r1, d1, n1, a1 tables_distinct_nil, ?_⟩
  have h := a2 (from_defaults_nil L _)
  rw [d1] at h
  exact h

/-- The environment `load_exp_config` returns, for any input: the Default Flag Map is
the given one, the keys are distinct and every override entry is built from a
default entry. -/
theorem load_exp_config_invariants (L : Lib) (fs : Str → Option Str) (env : ExpEnvironment)
    (file_path : Option Str) :
    ∃ env1, load_exp_config L fs env file_path = some env1 ∧
      env1._p_default_flag_map = env._p_default_flag_map ∧
      tables_distinct env1._p_expid_flag_map ∧
      from_defaults L env1._p_expid_flag_map env._p_default_flag_map := by
  cases file_path with
  | none => exact ⟨_, rfl, rfl, tables_distinct_nil, from_defaults_nil L _⟩
  | some p =>
    cases hfs : fs (c_string p) with
    | none =>
      refine ⟨(({ env with _p_expid_flag_map := [] } : ExpEnvironment).LOG Severity.FATAL
        "open exp config failed\n".toList), ?_, rfl, tables_distinct_nil, from_defaults_nil L _⟩
      simp [load_exp_config, hfs]
    | some contents =>
      obtain ⟨s1, r1, d1, _, t1, f1⟩ := load_lines_from_start L (c_string p) env
        (getlines contents)
      refine ⟨s1.2, ?_, d1, t1, f1⟩
      rw [load_exp_config_lines L fs env p contents hfs, r1]
      rfl

theorem typed_by_defaults_of (L : Lib) (em : ExpidFlagMap) (dm : FlagMap)
    (hd : tables_distinct em) (hf : from_defaults L em dm) : typed_by_defaults em dm := by
  intro e fm fid f he hfid
  have h1 : Map.find em e = some (some fm) := Map.mem_find em e _ hd.1 he
  have h2 : Map.find fm fid = some f := Map.mem_find fm fid f (hd.2 e fm he) hfid
  obtain ⟨d, value, hdm, hfl⟩ := hf e fid f (by simp [override_entry, h1, h2])
  refine ⟨d, hdm, ?_, ?_⟩
  · rw [hfl]
    rfl
  · rw [hfl]
    rfl

/-- C15: after `load_exp_config` on any input, and after every first part of the
lines of the file, every entry of every map of the override table has a flag id that
is a key of the Default Flag Map, and carries the type tag and the name of the default
entry for that id. -/
theorem override_entries_follow_defaults (L : Lib) (fs : Str → Option Str)
    (env : ExpEnvironment) (path text : Str) (pre rest : List Str)
    (hopen : fs (c_string path) = some text)
    (hlines : getlines text = pre ++ rest) :
    ∃ st1 env2,
      load_lines L (c_string path) ([], { env with _p_expid_flag_map := [] }) pre = some st1 ∧
      load_exp_config L fs env (some path) = some env2 ∧
      typed_by_defaults st1.2._p_expid_flag_map env._p_default_flag_map ∧
      typed_by_defaults env2._p_expid_flag_map env._p_default_flag_map ∧
      env2._p_default_flag_map = env._p_default_flag_map := by
  obtain ⟨s1, r1, _, _, t1, f1⟩ := load_lines_from_start L (c_string path) env pre
  obtain ⟨s2, r2, d2, _, t2, f2⟩ := load_lines_from_start L (c_string path) env (pre ++ rest)
  refine ⟨s1, s2.2, r1, ?_, typed_by_defaults_of L _ _ t1 f1,
    typed_by_defaults_of L _ _ t2 f2, d2⟩
  rw [load_exp_config_lines L fs env path text hopen, hlines, r2]
  rfl

/-- The override entries of a file with two sections carry the types and names of the
registered flags, after two lines and after the whole file. -/
theorem override_entries_follow_defaults_witness :
    ∃ st1 env2,
      load_lines test_lib (c_string "exp.conf".toList)
        ([], { test_env with _p_expid_flag_map := [] }) ["[E]".toList, "f = 1".toList]
        = some st1 ∧
      load_exp_config test_lib (test_fs "[E]\nf = 1\n[D]\nb = maybe\nu = 9\n") test_env
        (some "exp.conf".toList) = some env2 ∧
      typed_by_defaults st1.2._p_expid_flag_map test_env._p_default_flag_map ∧
      typed_by_defaults env2._p_expid_flag_map test_env._p_default_flag_map ∧
      env2._p_default_flag_map = test_env._p_default_flag_map :=
  override_entries_follow_defaults test_lib (test_fs "[E]\nf = 1\n[D]\nb = maybe\nu = 9\n")
    test_env "exp.conf".toList "[E]\nf = 1\n[D]\nb = maybe\nu = 9\n".toList
    ["[E]".toList, "f = 1".toList] ["[D]".toList, "b = maybe".toList, "u = 9".toList]
    (by decide) (by decide)

theorem get_default_value_unregistered {T : Type} (tt : type_traits T) (env : ExpEnvironment)
    (fid : FlagID) (h : Map.find env._p_default_flag_map fid = none) :
    (get_default_value tt env fid).1 = some tt.default_value := by
  simp [get_default_value, h]

/-- C18: for a flag id that is no key of the Default Flag Map, after `load_exp_config`
on any input, the getters return the zero of their kind (false, 0, 0, and 0.0 as bit
pattern 0) for every experiment id, NULL, unknown or known; the override table has no
entry for such an id. -/
theorem unregistered_flag_resolves_to_zero (L : Lib) (fs : Str → Option Str)
    (env : ExpEnvironment) (file_path : Option Str) (fid : FlagID)
    (h : Map.find env._p_default_flag_map fid = none) :
    ∃ env1, load_exp_config L fs env file_path = some env1 ∧
      (∀ e, override_entry env1._p_expid_flag_map e fid = none) ∧
      ∀ exp_id : Option Str,
        (get_bool env1 exp_id fid).1 = some false ∧
        (get_int32 env1 exp_id fid).1 = some 0 ∧
        (get_uint32 env1 exp_id fid).1 = some 0 ∧
        (get_float L env1 exp_id fid).1 = some 0 := by
  obtain ⟨env1, r1, d1, _, f1⟩ := load_exp_config_invariants L fs env file_path
  have hnone : ∀ e, override_entry env1._p_expid_flag_map e fid = none := by
    intro e
    cases ho : override_entry env1._p_expid_flag_map e fid with
    | none => rfl
    | some f =>
      obtain ⟨d, _, hd, _⟩ := f1 e fid f ho
      rw [h] at hd
      exact absurd hd (by simp)
  have hdm : Map.find env1._p_default_flag_map fid = none := by
    rw [d1]
    exact h
  have hget : ∀ {T : Type} (tt : type_traits T) (exp_id : Option Str),
      (get_exp_value tt env1 exp_id fid).1 = some tt.default_value := by
    intro T tt exp_id
    cases exp_id with
    | none =>
      rw [get_exp_value_null_or_sentinel tt env1 none fid (Or.inl rfl)]
      exact get_default_value_unregistered tt env1 fid hdm
    | some e =>
      rw [get_exp_value_no_entry tt env1 e fid (hnone _)]
      exact get_default_value_unregistered tt env1 fid hdm
  exact ⟨env1, r1, hnone, fun exp_id => ⟨hget type_traits_bool exp_id,
    hget type_traits_int32_t exp_id, hget type_traits_uint32_t exp_id,
    hget (type_traits_float L) exp_id⟩⟩

/-- The id 1000 is not registered: after loading a file the getters return the zero
values for it. -/
theorem unregistered_flag_resolves_to_zero_witness :
    ∃ env1, load_exp_config test_lib (test_fs "[E]\nf = 1\nnosuchflag = 5\n") test_env
        (some "exp.conf".toList) = some env1 ∧
      (∀ e, override_entry env1._p_expid_flag_map e 1000 = none) ∧
      ∀ exp_id : Option Str,
        (get_bool env1 exp_id 1000).1 = some false ∧
        (get_int32 env1 exp_id 1000).1 = some 0 ∧
        (get_uint32 env1 exp_id 1000).1 = some 0 ∧
        (get_float test_lib env1 exp_id 1000).1 = some 0 :=
  unregistered_flag_resolves_to_zero test_lib (test_fs "[E]\nf = 1\nnosuchflag = 5\n")
    test_env (some "exp.conf".toList) 1000 (by decide)

end exp_flag

namespace exp_flag

/-- C13 as stated fails for an entry stored under the sentinel id. With a hash that
maps the name f to the value of `INVALID_FLAG_ID`, the flag f (INT32, default 7) is
registered and the file sets it to 42 in section E; `print_exp_environment` logs the
entry of E with the value 42, while `get_int32(E, id)` returns the default 7. -/
theorem printed_override_under_sentinel_id :
    register_flag sentinel_lib type_traits_int32_t [] (some "f".toList) 7
      = (-1, [(-1, ⟨FlagValue._int32_value 7, FlagValueType.FV_TYPE_INT32, "f".toList⟩)], []) ∧
    load_exp_config sentinel_lib (test_fs "[E]\nf = 42\n")
        ⟨[], [(-1, ⟨FlagValue._int32_value 7, FlagValueType.FV_TYPE_INT32, "f".toList⟩)], []⟩
        (some "exp.conf".toList)
      = some ⟨[("E".toList, some [(-1, ⟨FlagValue._int32_value 42,
            FlagValueType.FV_TYPE_INT32, "f".toList⟩)])],
          [(-1, ⟨FlagValue._int32_value 7, FlagValueType.FV_TYPE_INT32, "f".toList⟩)], []⟩ ∧
    (print_exp_environment (fun _ => [])
        ⟨[("E".toList, some [(-1, ⟨FlagValue._int32_value 42,
            FlagValueType.FV_TYPE_INT32, "f".toList⟩)])],
          [(-1, ⟨FlagValue._int32_value 7, FlagValueType.FV_TYPE_INT32, "f".toList⟩)], []⟩).map
        (fun env2 => env2.glog)
      = some [⟨Severity.ERROR, "-------- default flag map ------------\n".toList⟩,
          ⟨Severity.ERROR, "int32 : f=7\n".toList⟩,
          ⟨Severity.ERROR, "-------- E ----------\n".toList⟩,
          ⟨Severity.ERROR, "int32 : f=42\n".toList⟩] ∧
    (get_int32
        ⟨[("E".toList, some [(-1, ⟨FlagValue._int32_value 42,
            FlagValueType.FV_TYPE_INT32, "f".toList⟩)])],
          [(-1, ⟨FlagValue._int32_value 7, FlagValueType.FV_TYPE_INT32, "f".toList⟩)], []⟩
        (some "E".toList) (-1)).1 = some 7 := by
  decide

/-- C13, amended: after `load_exp_config` on any input, with a registry of distinct
keys, the entries that `print_exp_environment` goes through agree with the getters:
for each entry of the Default Flag Map of kind T with value d, get<T>(NULL, flag_id)
is d; and for each experiment id e of the table (without NUL character, as the getter
takes a C string) and each entry of its map of kind T with value v whose flag id is
not `INVALID_FLAG_ID`, get<T>(e, flag_id) is v. -/
theorem printed_entries_agree_with_getters (L : Lib) (fs : Str → Option Str)
    (env : ExpEnvironment) (file_path : Option Str)
    (hdist : Map.distinct_keys env._p_default_flag_map) :
    ∃ env1, load_exp_config L fs env file_path = some env1 ∧
      (∀ (k : FlagValueType) (fid : FlagID) (d : k.value_type) (name : Str),
        (fid, (⟨(traits L k).value_to_flag_value d, (traits L k).to_type, name⟩ : Flag))
            ∈ env1._p_default_flag_map →
        (get_exp_value (traits L k) env1 none fid).1 = some d) ∧
      (∀ (k : FlagValueType) (e : Str) (fm : FlagMap) (fid : FlagID) (v : k.value_type)
          (name : Str),
        (e, some fm) ∈ env1._p_expid_flag_map →
        (fid, (⟨(traits L k).value_to_flag_value v, (traits L k).to_type, name⟩ : Flag)) ∈ fm →
        fid ≠ INVALID_FLAG_ID → (∀ c ∈ e, c.toNat ≠ 0) →
        (get_exp_value (traits L k) env1 (some e) fid).1 = some v) := by
  obtain ⟨env1, r1, d1, t1, _⟩ := load_exp_config_invariants L fs env file_path
  refine ⟨env1, r1, ?_, ?_⟩
  · intro k fid d name hmem
    have hfind := Map.mem_find env1._p_default_flag_map fid _ (by rw [d1]; exact hdist) hmem
    rw [get_exp_value_null_or_sentinel (traits L k) env1 none fid (Or.inl rfl),
      get_default_value_registered (traits L k) env1 fid _ hfind]
    exact traits_roundtrip L k d
  · intro k e fm fid v name he hfid hne hnul
    have h1 : Map.find env1._p_expid_flag_map e = some (some fm) :=
      Map.mem_find _ e _ t1.1 he
    have h2 := Map.mem_find fm fid _ (t1.2 e fm he) hfid
    have hce : c_string e = e := c_string_of_no_nul e hnul
    have hent : override_entry env1._p_expid_flag_map (c_string e) fid
        = some ⟨(traits L k).value_to_flag_value v, (traits L k).to_type, name⟩ := by
      rw [hce]
      simp only [override_entry, h1]
      exact h2
    rw [get_exp_value_entry (traits L k) env1 e fid _ hne hent]
    exact traits_roundtrip L k v

/-- After loading a file with one section, every entry of the two tables of the test
registry is what the getters return. -/
theorem printed_entries_agree_with_getters_witness :
    ∃ env1, load_exp_config test_lib (test_fs "[E]\nf = 42\nb = 0\n") test_env
        (some "exp.conf".toList) = some env1 ∧
      (∀ (k : FlagValueType) (fid : FlagID) (d : k.value_type) (name : Str),
        (fid, (⟨(traits test_lib k).value_to_flag_value d, (traits test_lib k).to_type,
            name⟩ : Flag)) ∈ env1._p_default_flag_map →
        (get_exp_value (traits test_lib k) env1 none fid).1 = some d) ∧
      (∀ (k : FlagValueType) (e : Str) (fm : FlagMap) (fid : FlagID) (v : k.value_type)
          (name : Str),
        (e, some fm) ∈ env1._p_expid_flag_map →
        (fid, (⟨(traits test_lib k).value_to_flag_value v, (traits test_lib k).to_type,
            name⟩ : Flag)) ∈ fm →
        fid ≠ INVALID_FLAG_ID → (∀ c ∈ e, c.toNat ≠ 0) →
        (get_exp_value (traits test_lib k) env1 (some e) fid).1 = some v) :=
  printed_entries_agree_with_getters test_lib (test_fs "[E]\nf = 42\nb = 0\n") test_env
    (some "exp.conf".toList) (by decide)

end exp_flag

/-! ## The current section -/

namespace exp_flag

theorem last_header_none_iff (ls : List Str) :
    last_header ls = none ↔ ∀ l ∈ ls, ∀ id, line_kind l ≠ LineKind.header id := by
  induction ls with
  | nil => simp [last_header]
  | cons l ls ih =>
    simp only [last_header, List.mem_cons, forall_eq_or_imp]
    cases hrest : last_header ls with
    | some id =>
      simp only [reduceCtorEq, false_iff, not_and]
      intro _ hall
      rw [hrest] at ih
      exact absurd (ih.mpr hall) (by simp)
    | none =>
      rw [hrest] at ih
      have hall := ih.mp rfl
      cases hk : line_kind l with
      | header id => simp
      | skip => simpa using hall
      | illegal => simpa using hall
      | assignment n v => simpa using hall

/-- After any lines the current experiment id is the id of the last header line (the
initial one if there is none), and that id is a key of the override table; without a
header line no key is added. -/
theorem load_lines_current (L : Lib) (fp : Str) (st st1 : Str × ExpEnvironment)
    (ls : List Str) (hnn : nonnull st.2._p_expid_flag_map)
    (hrun : load_lines L fp st ls = some st1) :
    st1.1 = (last_header ls).getD st.1 ∧
    (∀ id, last_header ls = some id → Map.find st1.2._p_expid_flag_map id ≠ none) ∧
    (last_header ls = none → ∀ e, Map.find st.2._p_expid_flag_map e = none →
      Map.find st1.2._p_expid_flag_map e = none) := by
  induction ls generalizing st with
  | nil =>
    simp only [load_lines, Option.some.injEq] at hrun
    subst hrun
    exact ⟨rfl, fun id h => by simp [last_header] at h, fun _ e h => h⟩
  | cons l ls ih =>
    obtain ⟨s1, h1, hn1, _, _, _, hkeep, hhdr, hcur, _⟩ := load_line_effect L fp st l hnn
    simp only [load_lines, h1] at hrun
    obtain ⟨i1, i2, i3⟩ := ih s1 hn1 hrun
    have hmono1 : ∀ e, Map.find s1.2._p_expid_flag_map e ≠ none →
        Map.find st1.2._p_expid_flag_map e ≠ none := by
      obtain ⟨s2, r2, _, _, hm, _⟩ := load_lines_effect L fp s1 ls hn1
      rw [hrun] at r2
      simp only [Option.some.injEq] at r2
      subst r2
      exact hm
    cases hrest : last_header ls with
    | some id =>
      simp only [last_header, hrest, Option.getD_some]
      refine ⟨?_, ?_, fun h => by simp at h⟩
      · rw [i1, hrest]
        rfl
      · intro id1 hid
        simp only [Option.some.injEq] at hid
        subst hid
        exact i2 id hrest
    | none =>
      simp only [last_header, hrest]
      rw [hrest] at i1
      simp only [Option.getD_none] at i1
      cases hk : line_kind l with
      | header id =>
        obtain ⟨c1, c2⟩ := hhdr id hk
        refine ⟨?_, ?_, fun h => by simp at h⟩
        · rw [i1, c1]
          rfl
        · intro id1 hid
          simp only [Option.some.injEq] at hid
          subst hid
          exact hmono1 id c2
      | skip =>
        have hc : s1.1 = st.1 := hcur (fun id h => by rw [hk] at h; cases h)
        refine ⟨by rw [i1, hc]; rfl, fun id h => by simp at h, ?_⟩
        intro _ e he
        exact i3 hrest e (hkeep e (by rw [hk]; simp) he)
      | illegal =>
        have hc : s1.1 = st.1 := hcur (fun id h => by rw [hk] at h; cases h)
        refine ⟨by rw [i1, hc]; rfl, fun id h => by simp at h, ?_⟩
        intro _ e he
        exact i3 hrest e (hkeep e (by rw [hk]; simp) he)
      | assignment n v =>
        have hc : s1.1 = st.1 := hcur (fun id h => by rw [hk] at h; cases h)
        refine ⟨by rw [i1, hc]; rfl, fun id h => by simp at h, ?_⟩
        intro _ e he
        exact i3 hrest e (hkeep e (by rw [hk]; simp) he)

/-- C16: for an assignment line `l` that follows the lines `pre` of a file: the loop
body rejects it with the diagnostic of a flag without section, leaving the tables as
they are, if and only if no header line is among `pre`. Once a header has been
processed, the current experiment id is the id of the last header and is a key of the
override table (also for the empty id), and an assignment to a registered flag is
inserted into the map of that id. -/
theorem flag_without_section (L : Lib) (fp : Str) (env : ExpEnvironment)
    (pre : List Str) (l name value : Str)
    (hl : line_kind l = LineKind.assignment name value) :
    ∃ st, load_lines L fp ([], { env with _p_expid_flag_map := [] }) pre = some st ∧
      ((load_line L fp st l = some (st.1, st.2.LOG Severity.FATAL
          ("Don't know this flag[".toList ++ trim l
            ++ "]belongs to which expid\n".toList))) ↔
        (∀ x ∈ pre, ∀ id, line_kind x ≠ LineKind.header id)) ∧
      (∀ id, last_header pre = some id →
        st.1 = id ∧ Map.find st.2._p_expid_flag_map id ≠ none ∧
        ∀ d, Map.find env._p_default_flag_map (L.string_hash name) = some d →
          ∃ fm, Map.find st.2._p_expid_flag_map id = some (some fm) ∧
            load_line L fp st l = some (id, with_flag_map st.2 id
              (Map.insert fm (L.string_hash name) (override_flag L d value)))) := by
  obtain ⟨st, r1, d1, n1, _, _⟩ := load_lines_from_start L fp env pre
  obtain ⟨c1, c2, c3⟩ := load_lines_current L fp _ st pre nonnull_nil r1
  refine ⟨st, r1, ?_, ?_⟩
  · rw [← last_header_none_iff]
    constructor
    · intro hrej
      cases hlast : last_header pre with
      | none => rfl
      | some id =>
        exfalso
        have hkey := c2 id hlast
        rw [hlast] at c1
        simp only [Option.getD_some] at c1
        rw [load_line_eq, hl] at hrej
        simp only [c1, hkey, if_false] at hrej
        cases hd : Map.find st.2._p_default_flag_map (L.string_hash name) with
        | none =>
          rw [set_exp_flag_value_unregistered L st.2 id name value hd] at hrej
          simp only [Bool.false_eq_true, if_false, Option.some.injEq, Prod.mk.injEq,
            true_and] at hrej
          have hg := congrArg ExpEnvironment.glog hrej
          simp only [ExpEnvironment.LOG, List.append_cancel_left_eq, List.cons.injEq,
            and_true, LogEntry.mk.injEq, true_and] at hg
          have hh := congrArg List.head? hg
          simp at hh
        | some d =>
          rw [set_exp_flag_value_registered L st.2 id name value d hd] at hrej
          cases hp : Map.find st.2._p_expid_flag_map id with
          | none => exact hkey hp
          | some p =>
            cases p with
            | none => exact n1 id hp
            | some fm =>
              simp only [hp, if_true, Option.some.injEq, Prod.mk.injEq, true_and] at hrej
              have hg := congrArg (fun e => e.glog.length) hrej
              simp [with_flag_map, ExpEnvironment.LOG] at hg
    · intro hnone
      rw [hnone] at c1
      simp only [Option.getD_none] at c1
      have hkey : Map.find st.2._p_expid_flag_map st.1 = none := by
        rw [c1]
        exact c3 hnone [] rfl
      rw [load_line_eq, hl]
      simp only [hkey, if_true]
  · intro id hlast
    have hkey := c2 id hlast
    rw [hlast] at c1
    simp only [Option.getD_some] at c1
    refine ⟨c1, hkey, ?_⟩
    intro d hd
    cases hp : Map.find st.2._p_expid_flag_map id with
    | none => exact absurd hp hkey
    | some p =>
      cases p with
      | none => exact absurd hp (n1 id)
      | some fm =>
        refine ⟨fm, rfl, ?_⟩
        rw [load_line_eq, hl]
        simp only [c1, hkey, if_false]
        rw [set_exp_flag_value_registered L st.2 id name value d (by rw [d1]; exact hd)]
        simp [hp]

/-- After a comment and the header with the empty id, the line f = 1 is attributed to
the empty id and not rejected. -/
theorem flag_without_section_witness :
    ∃ st, load_lines test_lib "exp.conf".toList ([], { test_env with _p_expid_flag_map := [] })
        ["# c".toList, "[]".toList] = some st ∧
      ((load_line test_lib "exp.conf".toList st "f = 1".toList
          = some (st.1, st.2.LOG Severity.FATAL
            ("Don't know this flag[".toList ++ trim "f = 1".toList
              ++ "]belongs to which expid\n".toList))) ↔
        (∀ x ∈ ["# c".toList, "[]".toList], ∀ id, line_kind x ≠ LineKind.header id)) ∧
      (∀ id, last_header ["# c".toList, "[]".toList] = some id →
        st.1 = id ∧ Map.find st.2._p_expid_flag_map id ≠ none ∧
        ∀ d, Map.find test_env._p_default_flag_map (test_lib.string_hash "f".toList) = some d →
          ∃ fm, Map.find st.2._p_expid_flag_map id = some (some fm) ∧
            load_line test_lib "exp.conf".toList st "f = 1".toList
              = some (id, with_flag_map st.2 id
                (Map.insert fm (test_lib.string_hash "f".toList)
                  (override_flag test_lib d "1".toList)))) :=
  flag_without_section test_lib "exp.conf".toList test_env ["# c".toList, "[]".toList]
    "f = 1".toList "f".toList "1".toList (by decide)

end exp_flag

/-! ## Trimming -/

namespace exp_flag

theorem trim_eq (s : Str) : trim s = rtrim (ltrim s) := rfl

theorem ltrim_all_space (a s : Str) (ha : all_space a) : ltrim (a ++ s) = ltrim s :=
  dropWhile_all_append isspace a s ha

theorem ltrim_nonspace (x : Str) (c : Char) (y : Str) (hc : isspace c = false) :
    ltrim (x ++ c :: y) = ltrim x ++ c :: y := by
  induction x with
  | nil => simp [ltrim, List.dropWhile, hc]
  | cons a x ih =>
    cases ha : isspace a with
    | true =>
      have h1 : ltrim (a :: (x ++ c :: y)) = ltrim (x ++ c :: y) := by
        simp [ltrim, List.dropWhile, ha]
      have h2 : ltrim (a :: x) = ltrim x := by
        simp [ltrim, List.dropWhile, ha]
      rw [List.cons_append, h1, h2, ih]
    | false =>
      simp [ltrim, List.dropWhile, ha]

theorem rtrim_all_space (s b : Str) (hb : all_space b) : rtrim (s ++ b) = rtrim s := by
  unfold rtrim
  rw [List.reverse_append, dropWhile_all_append isspace b.reverse s.reverse
    (fun x hx => hb x (List.mem_reverse.mp hx))]

theorem rtrim_nonspace (x : Str) (c : Char) (y : Str) (hc : isspace c = false) :
    rtrim (x ++ c :: y) = x ++ c :: rtrim y := by
  have h := ltrim_nonspace y.reverse c x.reverse hc
  unfold rtrim
  unfold ltrim at h
  have hrev : (x ++ c :: y).reverse = y.reverse ++ c :: x.reverse := by simp
  rw [hrev, h]
  simp

theorem all_space_nil : all_space [] := by
  intro c hc
  cases hc

theorem all_space_append (a b : Str) (ha : all_space a) (hb : all_space b) :
    all_space (a ++ b) := by
  intro c hc
  rcases List.mem_append.mp hc with h | h
  · exact ha c h
  · exact hb c h

theorem ltrim_of_all_space (s : Str) (h : all_space s) : ltrim s = [] := by
  have h1 := ltrim_all_space s [] h
  simpa [ltrim] using h1

theorem rtrim_of_all_space (s : Str) (h : all_space s) : rtrim s = [] := by
  have h1 := rtrim_all_space [] s h
  simpa [rtrim] using h1

/-- A string is all whitespace, or has a first character that is none. -/
theorem first_nonspace (s : Str) :
    all_space s ∨ ∃ a c r, s = a ++ c :: r ∧ all_space a ∧ isspace c = false := by
  induction s with
  | nil => exact Or.inl all_space_nil
  | cons x s ih =>
    cases hx : isspace x with
    | false => exact Or.inr ⟨[], x, s, rfl, all_space_nil, hx⟩
    | true =>
      rcases ih with h | ⟨a, c, r, h1, h2, h3⟩
      · left
        intro c hc
        rcases List.mem_cons.mp hc with h4 | h4
        · rw [h4]; exact hx
        · exact h c h4
      · right
        refine ⟨x :: a, c, r, by rw [h1]; rfl, ?_, h3⟩
        intro y hy
        rcases List.mem_cons.mp hy with h4 | h4
        · rw [h4]; exact hx
        · exact h2 y h4

/-- A string is all whitespace, or has a last character that is none. -/
theorem last_nonspace (s : Str) :
    all_space s ∨ ∃ r c b, s = r ++ c :: b ∧ all_space b ∧ isspace c = false := by
  rcases first_nonspace s.reverse with h | ⟨a, c, r, h1, h2, h3⟩
  · left
    intro c hc
    exact h c (List.mem_reverse.mpr hc)
  · right
    refine ⟨r.reverse, c, a.reverse, ?_, fun x hx => h2 x (List.mem_reverse.mp hx), h3⟩
    have h4 := congrArg List.reverse h1
    simpa using h4

theorem trim_of_all_space (s : Str) (h : all_space s) : trim s = [] := by
  rw [trim_eq, ltrim_of_all_space s h]
  rfl

theorem trim_of_first (a : Str) (c : Char) (r : Str) (ha : all_space a)
    (hc : isspace c = false) : trim (a ++ c :: r) = c :: rtrim r := by
  rw [trim_eq, ltrim_all_space a _ ha]
  have h1 : ltrim (c :: r) = c :: r := by
    have h := ltrim_nonspace [] c r hc
    simpa [ltrim] using h
  rw [h1]
  exact rtrim_nonspace [] c r hc

/-- Whitespace around a string does not change what `trim` returns. -/
theorem trim_around (a s b : Str) (ha : all_space a) (hb : all_space b) :
    trim (a ++ s ++ b) = trim s := by
  rcases first_nonspace s with h | ⟨a1, c, r, h1, h2, h3⟩
  · rw [trim_of_all_space s h,
      trim_of_all_space _ (all_space_append _ _ (all_space_append _ _ ha h) hb)]
  · subst h1
    have h : a ++ (a1 ++ c :: r) ++ b = (a ++ a1) ++ c :: (r ++ b) := by simp
    rw [h, trim_of_first (a ++ a1) c (r ++ b) (all_space_append _ _ ha h2) h3,
      trim_of_first a1 c r h2 h3, rtrim_all_space r b hb]

theorem ltrim_idem (s : Str) : ltrim (ltrim s) = ltrim s := by
  rcases first_nonspace s with h | ⟨a, c, r, h1, h2, h3⟩
  · rw [ltrim_of_all_space s h]
    rfl
  · subst h1
    rw [ltrim_all_space a _ h2]
    have h4 : ltrim (c :: r) = c :: r := by
      have h := ltrim_nonspace [] c r h3
      simpa [ltrim] using h
    rw [h4, h4]

theorem rtrim_idem (s : Str) : rtrim (rtrim s) = rtrim s := by
  have h := ltrim_idem s.reverse
  unfold rtrim
  unfold ltrim at h
  rw [List.reverse_reverse, h]

theorem trim_ltrim (s : Str) : trim (ltrim s) = trim s := by
  rw [trim_eq, ltrim_idem, ← trim_eq]

theorem trim_rtrim (s : Str) : trim (rtrim s) = trim s := by
  rcases first_nonspace s with h | ⟨a, c, r, h1, h2, h3⟩
  · rw [rtrim_of_all_space s h, trim_of_all_space s h]
    rfl
  · subst h1
    rw [rtrim_nonspace a c r h3, trim_of_first a c _ h2 h3, trim_of_first a c r h2 h3,
      rtrim_idem]

theorem find_char_append (s : Str) (c : Char) (t : Str) (h : c ∉ s) :
    find_char (s ++ c :: t) c = some s.length := by
  induction s with
  | nil => simp [find_char]
  | cons x s ih =>
    simp only [List.mem_cons, not_or] at h
    have hx : x ≠ c := fun hx => h.1 hx.symm
    simp [find_char, hx, ih h.2]

theorem eq_char_not_space : isspace '=' = false := by decide

/-- The trimmed text of a line with an `=`: the left part trimmed on its left, the
`=`, and the right part trimmed on its right. -/
theorem trim_assignment (x y : Str) :
    trim (x ++ '=' :: y) = ltrim x ++ '=' :: rtrim y := by
  rw [trim_eq, ltrim_nonspace x '=' y eq_char_not_space,
    rtrim_nonspace (ltrim x) '=' y eq_char_not_space]

theorem head_trim_assignment (x y : Str) :
    (ltrim x ++ '=' :: rtrim y).head? = (trim x ++ ['=']).head? := by
  rcases first_nonspace x with h | ⟨a, c, r, h1, h2, h3⟩
  · rw [ltrim_of_all_space x h, trim_of_all_space x h]
    rfl
  · subst h1
    rw [trim_of_first a c r h2 h3, ltrim_all_space a _ h2]
    have h4 : ltrim (c :: r) = c :: r := by
      have h := ltrim_nonspace [] c r h3
      simpa [ltrim] using h
    rw [h4]
    rfl

theorem getLast_trim_assignment (x y : Str) :
    (ltrim x ++ '=' :: rtrim y).getLast? = ('=' :: trim y).getLast? := by
  rcases last_nonspace y with h | ⟨r, c, b, h1, h2, h3⟩
  · rw [rtrim_of_all_space y h, trim_of_all_space y h]
    simp
  · subst h1
    have h4 : rtrim (r ++ c :: b) = r ++ [c] := by
      rw [rtrim_nonspace r c b h3, rtrim_of_all_space b h2]
    have h5 : trim (r ++ c :: b) = ltrim r ++ [c] := by
      rw [trim_eq, ltrim_nonspace r c b h3, rtrim_nonspace (ltrim r) c b h3,
        rtrim_of_all_space b h2]
    rw [h4, h5]
    have e1 : ltrim x ++ '=' :: (r ++ [c]) = (ltrim x ++ '=' :: r) ++ [c] := by simp
    have e2 : '=' :: (ltrim r ++ [c]) = ('=' :: ltrim r) ++ [c] := by simp
    rw [e1, e2, List.getLast?_concat, List.getLast?_concat]

theorem mem_ltrim (x : Str) (c : Char) (h : c ∈ ltrim x) : c ∈ x :=
  (List.dropWhile_sublist isspace).subset h

/-- The kind of a line with an `=`, the part before which has no `=`: decided by the
trimmed parts on the two sides. -/
theorem line_kind_assignment_form (x y : Str) (hx : '=' ∉ x) :
    line_kind (x ++ '=' :: y) =
      if (trim x ++ ['=']).head? = some '#' then LineKind.skip
      else if (trim x ++ ['=']).head? = some '[' ∧ ('=' :: trim y).getLast? = some ']' then
        LineKind.header (trim (substr (trim (x ++ '=' :: y)) 1
          ((trim (x ++ '=' :: y)).length - 2)))
      else LineKind.assignment (trim x) (trim y) := by
  have hlen : ¬ (trim (x ++ '=' :: y)).length = 0 := by
    rw [trim_assignment]
    simp
  have hfind : find_char (trim (x ++ '=' :: y)) '=' = some (ltrim x).length := by
    rw [trim_assignment]
    exact find_char_append _ _ _ (fun h => hx (mem_ltrim x _ h))
  have hname : substr (trim (x ++ '=' :: y)) 0 (ltrim x).length = ltrim x := by
    rw [trim_assignment]
    simp [substr]
  have hvalue : substr (trim (x ++ '=' :: y)) ((ltrim x).length + 1)
      ((trim (x ++ '=' :: y)).length - 1) = rtrim y := by
    rw [trim_assignment]
    have hd : List.drop ((ltrim x).length + 1) (ltrim x ++ '=' :: rtrim y) = rtrim y := by
      have e : ltrim x ++ '=' :: rtrim y = (ltrim x ++ ['=']) ++ rtrim y := by simp
      rw [e]
      exact List.drop_left' (by simp)
    simp only [substr, hd]
    apply List.take_of_length_le
    simp only [List.length_append, List.length_cons]
    omega
  unfold line_kind
  simp only [hlen, false_or, hfind, hname, hvalue, trim_ltrim, trim_rtrim]
  rw [trim_assignment, head_trim_assignment, getLast_trim_assignment, ← trim_assignment]

end exp_flag

/-! ## Whitespace and the kind of a line -/

namespace exp_flag

theorem line_kind_of_trim (l l1 : Str) (h : trim l = trim l1) : line_kind l = line_kind l1 := by
  unfold line_kind
  rw [h]

theorem line_kind_header_form (name : Str) :
    line_kind ('[' :: (name ++ [']'])) = LineKind.header (trim name) := by
  have hb : isspace '[' = false := by decide
  have hc : isspace ']' = false := by decide
  have ht : trim ('[' :: (name ++ [']'])) = '[' :: (name ++ [']']) := by
    have h := trim_of_first [] '[' (name ++ [']']) all_space_nil hb
    rw [List.nil_append] at h
    rw [h]
    have h2 := rtrim_nonspace name ']' [] hc
    rw [h2]
    rfl
  have hne : ('[' : Char) ≠ '#' := by decide
  unfold line_kind
  simp only [ht]
  have hlast : ('[' :: (name ++ [']'])).getLast? = some ']' := by
    have e : '[' :: (name ++ [']']) = ('[' :: name) ++ [']'] := by simp
    rw [e, List.getLast?_concat]
  have hsub : substr ('[' :: (name ++ [']'])) 1 name.length = name := by
    simp [substr]
  simp [hne, hlast, hsub]

/-- Lines that are the same up to whitespace have the same kind. -/
theorem line_kind_same_up_to_whitespace (l l1 : Str) (h : same_up_to_whitespace l l1) :
    line_kind l = line_kind l1 := by
  induction h with
  | refl l => rfl
  | symm _ ih => exact ih.symm
  | trans _ _ ih1 ih2 => exact ih1.trans ih2
  | around_line l a b ha hb => exact line_kind_of_trim _ _ (trim_around a l b ha hb).symm
  | around_section_name name a b ha hb =>
    rw [line_kind_header_form, line_kind_header_form, trim_around a name b ha hb]
  | around_name_and_value name value a b c d ha hb hc hd hname hkind =>
    have hname1 : '=' ∉ a ++ name ++ b := by
      intro hmem
      simp only [List.mem_append] at hmem
      rcases hmem with (h1 | h1) | h1
      · have := ha _ h1
        rw [eq_char_not_space] at this
        cases this
      · exact hname h1
      · have := hb _ h1
        rw [eq_char_not_space] at this
        cases this
    have e1 := line_kind_assignment_form name value hname
    have e2 := line_kind_assignment_form (a ++ name ++ b) (c ++ value ++ d) hname1
    rw [trim_around a name b ha hb, trim_around c value d hc hd] at e2
    obtain ⟨n, v, hk⟩ := hkind
    by_cases h1 : (trim name ++ ['=']).head? = some '#'
    · rw [if_pos h1, hk] at e1
      cases e1
    · rw [if_neg h1] at e1 e2
      by_cases h2 : (trim name ++ ['=']).head? = some '[' ∧
          ('=' :: trim value).getLast? = some ']'
      · rw [if_pos h2, hk] at e1
        cases e1
      · rw [if_neg h2] at e1 e2
        rw [e1, e2]

/-- The tables after a line depend on the tables before it and on the kind of the
line only. -/
theorem load_line_tables_of_kind (L : Lib) (fp fp1 : Str) (a b : Str × ExpEnvironment)
    (l l1 : Str) (hk : line_kind l = line_kind l1) (h : tables a = tables b) :
    (load_line L fp a l).map tables = (load_line L fp1 b l1).map tables := by
  obtain ⟨c, em, dm, g⟩ := a
  obtain ⟨c1, em1, dm1, g1⟩ := b
  simp only [tables, Prod.mk.injEq] at h
  obtain ⟨rfl, rfl, rfl⟩ := h
  rw [load_line_eq, load_line_eq, ← hk]
  cases line_kind l with
  | skip => rfl
  | header id =>
    simp only
    split_ifs <;> rfl
  | illegal => rfl
  | assignment name value =>
    simp only
    by_cases hc : Map.find em c = none
    · simp only [hc, if_true]
      rfl
    · simp only [hc, if_false]
      cases hd : Map.find dm (L.string_hash name) with
      | none =>
        rw [set_exp_flag_value_unregistered L _ c name value hd,
          set_exp_flag_value_unregistered L _ c name value hd]
        rfl
      | some d =>
        rw [set_exp_flag_value_registered L _ c name value d hd,
          set_exp_flag_value_registered L _ c name value d hd]
        simp only
        cases Map.find em c with
        | none => rfl
        | some p =>
          cases p with
          | none => rfl
          | some fm => rfl

theorem load_lines_tables_of_kind (L : Lib) (fp fp1 : Str) (a b : Str × ExpEnvironment)
    (ls ls1 : List Str) (hk : List.Forall₂ (fun l l1 => line_kind l = line_kind l1) ls ls1)
    (h : tables a = tables b) :
    (load_lines L fp a ls).map tables = (load_lines L fp1 b ls1).map tables := by
  induction ls generalizing ls1 a b with
  | nil =>
    cases hk
    simp [load_lines, h]
  | cons l ls ih =>
    cases hk with
    | cons hhead htail =>
      rename_i l1 ls1
      have h1 := load_line_tables_of_kind L fp fp1 a b l l1 hhead h
      simp only [load_lines]
      cases ha : load_line L fp a l with
      | none =>
        rw [ha] at h1
        cases hb : load_line L fp1 b l1 with
        | none => rfl
        | some y => rw [hb] at h1; simp at h1
      | some x =>
        rw [ha] at h1
        cases hb : load_line L fp1 b l1 with
        | none => rw [hb] at h1; simp at h1
        | some y =>
          rw [hb] at h1
          simp only [Option.map_some', Option.some.injEq] at h1
          exact ih x y ls1 htail h1

/-- C14: two configuration files whose lines are, one by one, the same up to
whitespace around the whole line, around the section name inside the brackets of a
header, or around the name and the value of an assignment, give the same override
table: both loads return, with equal override tables and Default Flag Maps. -/
theorem whitespace_insensitive (L : Lib) (fs fs1 : Str → Option Str) (env : ExpEnvironment)
    (path path1 text text1 : Str)
    (hopen : fs (c_string path) = some text) (hopen1 : fs1 (c_string path1) = some text1)
    (hlines : List.Forall₂ same_up_to_whitespace (getlines text) (getlines text1)) :
    ∃ env1 env2, load_exp_config L fs env (some path) = some env1 ∧
      load_exp_config L fs1 env (some path1) = some env2 ∧
      env1._p_expid_flag_map = env2._p_expid_flag_map ∧
      env1._p_default_flag_map = env2._p_default_flag_map := by
  obtain ⟨s1, r1, _⟩ := load_lines_from_start L (c_string path) env (getlines text)
  obtain ⟨s2, r2, _⟩ := load_lines_from_start L (c_string path1) env (getlines text1)
  have hk : List.Forall₂ (fun l l1 => line_kind l = line_kind l1)
      (getlines text) (getlines text1) :=
    List.Forall₂.imp (fun l l1 h => line_kind_same_up_to_whitespace l l1 h) hlines
  have ht := load_lines_tables_of_kind L (c_string path) (c_string path1)
    ([], { env with _p_expid_flag_map := [] }) ([], { env with _p_expid_flag_map := [] })
    (getlines text) (getlines text1) hk rfl
  rw [r1, r2] at ht
  simp only [Option.map_some', Option.some.injEq, tables, Prod.mk.injEq] at ht
  refine ⟨s1.2, s2.2, ?_, ?_, ht.2.1, ht.2.2⟩
  · rw [load_exp_config_lines L fs env path text hopen, r1]
    rfl
  · rw [load_exp_config_lines L fs1 env path1 text1 hopen1, r2]
    rfl

/-- The file with the lines `  [ A ]  ` and `  f  =  42  ` gives the same override
table as the file with the lines `[A]` and `f=42`. -/
theorem whitespace_insensitive_witness :
    ∃ env1 env2,
      load_exp_config test_lib (test_fs "[A]\nf=42\n") test_env (some "exp.conf".toList)
        = some env1 ∧
      load_exp_config test_lib (test_fs "  [ A ]  \n  f  =  42  \n") test_env
        (some "exp.conf".toList) = some env2 ∧
      env1._p_expid_flag_map = env2._p_expid_flag_map ∧
      env1._p_default_flag_map = env2._p_default_flag_map :=
  whitespace_insensitive test_lib (test_fs "[A]\nf=42\n") (test_fs "  [ A ]  \n  f  =  42  \n")
    test_env "exp.conf".toList "exp.conf".toList "[A]\nf=42\n".toList
    "  [ A ]  \n  f  =  42  \n".toList (by decide) (by decide)
    (by
      have h1 : getlines "[A]\nf=42\n".toList = ["[A]".toList, "f=42".toList] := by decide
      have h2 : getlines "  [ A ]  \n  f  =  42  \n".toList
          = ["  [ A ]  ".toList, "  f  =  42  ".toList] := by decide
      rw [h1, h2]
      refine List.Forall₂.cons ?_ (List.Forall₂.cons ?_ List.Forall₂.nil)
      · exact same_up_to_whitespace.trans
          (same_up_to_whitespace.around_section_name "A".toList " ".toList " ".toList
            (by decide) (by decide))
          (same_up_to_whitespace.around_line "[ A ]".toList "  ".toList "  ".toList
            (by decide) (by decide))
      · exact same_up_to_whitespace.trans
          (same_up_to_whitespace.around_name_and_value "f".toList "42".toList
            [] "  ".toList "  ".toList [] (by decide) (by decide) (by decide) (by decide)
            (by decide) ⟨"f".toList, "42".toList, by decide⟩)
          (same_up_to_whitespace.around_line "f  =  42".toList "  ".toList "  ".toList
            (by decide) (by decide)))

end exp_flag

namespace exp_flag

/-- Registration keeps the keys of the Default Flag Map distinct. -/
theorem register_flag_distinct_keys (L : Lib) {T : Type} (tt : type_traits T)
    (default_flag_map : FlagMap) (flag_name : Option Str) (value : T)
    (h : Map.distinct_keys default_flag_map) :
    Map.distinct_keys (register_flag L tt default_flag_map flag_name value).2.1 := by
  cases flag_name with
  | none => exact h
  | some p =>
    cases hf : Map.find default_flag_map (L.string_hash (c_string p)) with
    | none =>
      simp only [register_flag, hf, ne_eq, not_true_eq_false, if_false]
      exact Map.insert_distinct _ _ _ h
    | some d =>
      simp only [register_flag, hf, ne_eq, reduceCtorEq, not_false_eq_true, if_true,
        Map.subscript_present _ _ _ _ hf]
      exact h

end exp_flag

/-! ## The load under a terminating logging facility -/

namespace exp_flag

end exp_flag

namespace exp_flag

/-- When no diagnostic terminates the process, the terminating loop is the plain loop. -/
theorem load_lines_glog_never (L : Lib) (fp : Str) (st : Str × ExpEnvironment)
    (ls : List Str) :
    load_lines_glog (fun _ => false) L fp st ls
      = (load_lines L fp st ls).map (fun s => (false, s)) := by
  induction ls generalizing st with
  | nil => rfl
  | cons l ls ih =>
    simp only [load_lines_glog, load_lines]
    cases load_line L fp st l with
    | none => rfl
    | some st1 =>
      simp only [List.any_eq_true, Bool.false_eq_true, and_false, exists_false, if_false]
      exact ih st1

/-- The outcome of the terminating load on the file that declares section A twice. -/
theorem duplicate_section_outcome :
    load_exp_config_glog glog_aborts test_lib (test_fs "[A]\nf = 1\n[A]\nu = 2\n") test_env
        (some "exp.conf".toList)
      = some (true, ⟨[("A".toList, some [
            (102, ⟨FlagValue._int32_value 1, FlagValueType.FV_TYPE_INT32, "f".toList⟩)])],
          test_default_flag_map,
          [⟨Severity.FATAL, "exp_id [A] has been used before\n".toList⟩]⟩) := by
  decide

end exp_flag
